import Mathlib

/-!
# BlueprintShowcase: the animation-phase driver

A shallow embedding of the stateful part of `src/src/BlueprintShowcase.jsx`
(lines 5-93): the three `useState` cells, the async function `playSequence`,
the click handler `togglePlay`, the auto-start effect and the 100 ms
`energyCapture` interval.

`playSequence` is an async function: it runs synchronously up to its next
`await controls.start(...)`, is suspended there, and is resumed when the
awaited promise settles.  An invocation is therefore a program counter (the
`await` it is suspended at) together with its local constant `energyCapture`;
it also carries a record of its calls of `setCurrentStep`.
The component is a transition system whose events are a click on the button,
the auto-start timer firing, the settling of an awaited animation promise and
a tick of an active interval.  Numbers are exact rationals.

The step relation (`step`, `run`) lets these events come in any order.  The page
itself is more restricted: the object `controls` is passed to no element, so the
promise returned by `controls.start` is settled when it is awaited, and a call of
`playSequence` runs from its first line to its last within the task that made
it.  `taskStep`, `microStates` and `runTasks` describe the page task by task;
every state reached by tasks is reached by events (`runTasks_run`).  The promise
of `controls.start` is library behaviour (framer-motion is not part of the
source); what is taken from the source is that nothing subscribes to `controls`.

Further down: the rendered output that depends on the Run State (`systemStats`,
`phaseIndicator`, `svgOverlay`), the buttons with their `onClick` props
(`press`), and the mount effect under React mounts and unmounts (`Host`,
`hostStep`).
-/

namespace BlueprintShowcase

/-- The five `await controls.start(...)` of `playSequence` (lines 30, 38, 51,
62 and 70), named after the animation that is awaited. -/
inductive Await where
  | approach
  | fieldActivation
  | energyConversion
  | ringJettison
  | idleMonitoring
  deriving DecidableEq, Repr

/-- One in-flight call of `playSequence`: where it is suspended, the handle
held by its local `const energyCapture` once line 47 has run, whether
`controls.stop()` has been called since its last `controls.start` (a record
only: nothing reads it), and the arguments of the calls of `setCurrentStep` it
has made so far, in order. -/
structure Invocation where
  pc : Await
  energyCapture : Option Nat
  stopped : Bool
  writes : List Nat
  deriving DecidableEq, Repr

/-- The component between two events: the three `useState` cells (lines 7-9),
the pending `setTimeout` of the mount effect (line 91), the browser's table of
active `setInterval` timers with the next fresh handle, the handles that have
been passed to `clearInterval` (in call order), and the suspended calls of
`playSequence` (in the order they were started). -/
structure State where
  playing : Bool
  currentStep : Nat
  energyLevel : ℚ
  autoTimer : Bool
  intervals : List Nat
  nextHandle : Nat
  cleared : List Nat
  invocations : List Invocation
  deriving DecidableEq

/-- The index of the phase whose animation is awaited; the idle animation is
awaited while the page still shows the last phase. -/
def Await.phase : Await → Nat
  | Await.approach => 0
  | Await.fieldActivation => 1
  | Await.energyConversion => 2
  | Await.ringJettison => 3
  | Await.idleMonitoring => 3

/-- The Run State shown by the page: `playing`, `currentStep`, `energyLevel`. -/
structure RunState where
  playing : Bool
  currentStep : Nat
  energyLevel : ℚ
  deriving DecidableEq

/-- The Run State part of a component state. -/
def State.runState (s : State) : RunState :=
  { playing := s.playing, currentStep := s.currentStep, energyLevel := s.energyLevel }

/-- Line 14: the four phase labels. -/
def animationSteps : List String :=
  ["Guidance & Alignment", "Magnetic Field Activation", "Kinetic Energy Conversion",
   "Emergency Ring Jettison"]

/-- The component right after mount: `useState(false)`, `useState(0)`,
`useState(0)`, the auto-start timer scheduled, nothing else running. -/
def init : State :=
  { playing := false, currentStep := 0, energyLevel := 0, autoTimer := true,
    intervals := [], nextHandle := 0, cleared := [], invocations := [] }

/-- Line 48: the state update of one interval tick,
`prev => Math.min(prev + 0.15, 9.1)`. -/
def energyTick (prev : ℚ) : ℚ := min (prev + 15 / 100) (91 / 10)

/-- Lines 25-30: the synchronous prefix of `playSequence`, up to its first
`await`.  The three setters run and a new invocation is suspended at the
approach animation. -/
def playSequence (s : State) : State :=
  { s with
    playing := true
    currentStep := 0
    energyLevel := 0
    invocations := s.invocations ++
      [{ pc := Await.approach, energyCapture := none, stopped := false, writes := [0] }] }

/-- The call `clearInterval(h)` of line 58: the timer leaves the table of active
intervals; the call is recorded. -/
def clearInterval (s : State) (h : Option Nat) : State :=
  match h with
  | none => s
  | some k => { s with intervals := s.intervals.filter (fun j => j != k),
                       cleared := s.cleared ++ [k] }

/-- Lines 35-76: the code `playSequence` runs when the promise awaited by its
`i`-th in-flight invocation settles, up to the next `await` (or to the end of
the function, lines 74-75, after which the call is no longer in flight). -/
def resume (s : State) (i : Nat) : Option State :=
  match s.invocations[i]? with
  | none => none
  | some inv =>
    match inv.pc with
    | Await.approach =>
        -- line 35, then suspended at line 38
        some { s with
          currentStep := 1
          invocations := s.invocations.set i
            { inv with pc := Await.fieldActivation, stopped := false,
                       writes := inv.writes ++ [1] } }
    | Await.fieldActivation =>
        -- line 44, `setInterval` of line 47, then suspended at line 51
        some { s with
          currentStep := 2
          intervals := s.intervals ++ [s.nextHandle]
          nextHandle := s.nextHandle + 1
          invocations := s.invocations.set i
            { inv with pc := Await.energyConversion, energyCapture := some s.nextHandle,
                       stopped := false, writes := inv.writes ++ [2] } }
    | Await.energyConversion =>
        -- lines 58-59, then suspended at line 62
        let s1 := clearInterval s inv.energyCapture
        some { s1 with
          currentStep := 3
          invocations := s1.invocations.set i
            { inv with pc := Await.ringJettison, stopped := false,
                       writes := inv.writes ++ [3] } }
    | Await.ringJettison =>
        -- suspended at line 70
        some { s with
          invocations := s.invocations.set i
            { inv with pc := Await.idleMonitoring, stopped := false } }
    | Await.idleMonitoring =>
        -- lines 74-75, then the call returns
        some { s with
          playing := false
          currentStep := 0
          invocations := s.invocations.eraseIdx i }

/-- Lines 78-87: the click handler.  `controls.stop()` is recorded on the
in-flight invocations; it is the only thing the stop branch does to them. -/
def togglePlay (s : State) : State :=
  if s.playing then
    { s with
      playing := false
      currentStep := 0
      energyLevel := 0
      invocations := s.invocations.map (fun inv => { inv with stopped := true }) }
  else playSequence s

/-- The events of the component. -/
inductive Event where
  | click
  | autoStart
  | animationDone (i : Nat)
  | tick (h : Nat)
  deriving DecidableEq, Repr

/-- One event.  `none` when the event cannot happen in `s`: the auto-start timer
fires once (line 91), a promise settles only for an invocation that awaits it,
and only an active interval ticks. -/
def step (s : State) : Event → Option State
  | Event.click => some (togglePlay s)
  | Event.autoStart =>
      if s.autoTimer then some (playSequence { s with autoTimer := false }) else none
  | Event.animationDone i => resume s i
  | Event.tick h =>
      if h ∈ s.intervals then some { s with energyLevel := energyTick s.energyLevel }
      else none

/-- A sequence of events, from left to right. -/
def run (s : State) : List Event → Option State
  | [] => some s
  | e :: es =>
    match step s e with
    | none => none
    | some s1 => run s1 es

/-- An event of the run of the call of `playSequence` with index `n`, when
nobody stops the run or starts over and no other call is resumed: a tick of an
interval, or the settling of the promise that call `n` awaits. -/
def Event.ofRun (n : Nat) : Event → Bool
  | Event.click => false
  | Event.autoStart => false
  | Event.animationDone i => i == n
  | Event.tick _ => true

/-- How many awaited animations settle in a sequence of events. -/
def countDone : List Event → Nat
  | [] => 0
  | Event.animationDone _ :: es => countDone es + 1
  | _ :: es => countDone es

/-- The `await` a call of `playSequence` is suspended at after `k` of its awaited
animations have settled. -/
def awaitAfter : Nat → Await
  | 0 => Await.approach
  | 1 => Await.fieldActivation
  | 2 => Await.energyConversion
  | 3 => Await.ringJettison
  | _ => Await.idleMonitoring

/-- The state of the run started by `playSequence` in `s0` after `k` of its
awaited promises have settled and the energy level has become `e`, while the
calls already in flight in `s0` stay suspended; after the fifth the call has
returned (lines 74-75).  Used to describe a run in closed form. -/
def soloState (s0 : State) (k : Nat) (e : ℚ) : State :=
  { playing := decide (k < 5)
    currentStep := if k < 5 then min k 3 else 0
    energyLevel := e
    autoTimer := s0.autoTimer
    intervals :=
      if k < 2 then s0.intervals
      else if k = 2 then s0.intervals ++ [s0.nextHandle]
      else (s0.intervals ++ [s0.nextHandle]).filter (fun j => j != s0.nextHandle)
    nextHandle := if k < 2 then s0.nextHandle else s0.nextHandle + 1
    cleared := if k < 3 then s0.cleared else s0.cleared ++ [s0.nextHandle]
    invocations :=
      if k < 5 then
        s0.invocations ++
          [{ pc := awaitAfter k
             energyCapture := if k < 2 then none else some s0.nextHandle
             stopped := false
             writes := List.range (min k 3 + 1) }]
      else s0.invocations }

/-- A sample history: auto-start, the first two animations settle, then the
interval ticks twice. -/
def twoTicks : List Event :=
  [Event.autoStart, Event.animationDone 0, Event.animationDone 0, Event.tick 0, Event.tick 0]

/-- The `transition.duration` passed to `controls.start` at each `await`, in
seconds (lines 33, 42, 55 and 66); the idle animation of line 72 has
`repeat: Infinity` and no total length.  These numbers are arguments only: no
element of the page is animated by `controls`, so they pace nothing. -/
def Await.duration : Await → Option ℚ
  | Await.approach => some (18 / 10)
  | Await.fieldActivation => some 2
  | Await.energyConversion => some 3
  | Await.ringJettison => some (25 / 10)
  | Await.idleMonitoring => none

/-- A sample history: the user starts the sequence and stops it again. -/
def startThenStop : List Event := [Event.click, Event.click]

/-- The text of `x.toFixed(1)` (line 17) for an exact rational `x`: the sign, then
the integer `n` with `n / 10` closest to `|x|` (the larger one on a tie), written
with one digit after the point. -/
def toFixed1 (x : ℚ) : String :=
  let n := (⌊|x| * 10 + 1 / 2⌋).toNat
  (if x < 0 then "-" else "") ++ toString (n / 10) ++ "." ++ toString (n % 10)

/-- One entry of a statistics panel: the three strings it shows. -/
structure Stat where
  label : String
  value : String
  unit : String
  deriving DecidableEq, Repr

/-- Lines 16-21: the four entries of the system status grid, built at every
render from the Run State. -/
def systemStats (rs : RunState) : List Stat :=
  [ { label := "Energy Captured", value := toFixed1 rs.energyLevel, unit := "×10¹¹ J" },
    { label := "Ring Status", value := "4/4", unit := "Active" },
    { label := "Crew Aboard", value := "10", unit := "Personnel" },
    { label := "Field Strength", value := "15.2", unit := "Tesla" } ]

/-- Lines 786-801: the rows of the Crew Operations panel (label, value; there is
no unit). -/
def crewOperations (_rs : RunState) : List Stat :=
  [ { label := "Command Staff:", value := "1 Commander", unit := "" },
    { label := "Ring Operators:", value := "4 Specialists", unit := "" },
    { label := "Engineering:", value := "2 Mechanics", unit := "" },
    { label := "Science Team:", value := "3 Researchers", unit := "" } ]

/-- Lines 812-819: the rows of the Performance Specs panel; the `detail` of the
source is kept in `unit`. -/
def performanceSpecs (_rs : RunState) : List Stat :=
  [ { label := "Ring Diameter", value := "30m", unit := "10m aperture" },
    { label := "Boom Length", value := "40m", unit := "20m ring spacing" },
    { label := "Peak Capacity", value := "9.1×10¹¹", unit := "Joules" },
    { label := "Magnetic Field", value := "15+ Tesla", unit := "Superconducting" },
    { label := "Ring Mass", value := "20-50t", unit := "Per module" },
    { label := "Hub Mass", value := "100-300t", unit := "Central core" } ]

/-- A keyframe of an animated attribute: a number or a text such as a dash
pattern. -/
inductive Frame where
  | num (q : ℚ)
  | text (s : String)
  deriving DecidableEq

/-- One animated attribute of an element with its keyframes, in order (a single
target value is a list of one). -/
structure Target where
  attr : String
  frames : List Frame
  deriving DecidableEq

/-- The `animate` prop of a `motion` element: either the targets written in
place, or the `controls` object of `useAnimation` (line 6), which would make the
element follow `controls.start`. -/
inductive AnimateProp where
  | targets (ts : List Target)
  | controls
  deriving DecidableEq

/-- An animated element of the SVG overlay: the comment that names it in the
source and its `animate` prop. -/
structure SceneElement where
  name : String
  animate : AnimateProp
  deriving DecidableEq

/-- Numeric keyframes. -/
def nums (qs : List ℚ) : List Frame := qs.map Frame.num

/-- Line 532: the peak keyframe of the height of the energy level indicator,
`Math.max(10, energyLevel * 15)`. -/
def storageHeight (energyLevel : ℚ) : ℚ := max 10 (energyLevel * 15)

/-- Line 533: the peak keyframe of the `y` of the energy level indicator,
`Math.max(480, 490 - energyLevel * 15)`. -/
def storageY (energyLevel : ℚ) : ℚ := max 480 (490 - energyLevel * 15)

/-- The `animate` targets of the `TechnicalArrow` component (lines 95-139, used
with a label in lines 606-608): line, arrow head, label. -/
def technicalArrow : List SceneElement :=
  [ { name := "TechnicalArrow line",
      animate := AnimateProp.targets [{ attr := "strokeDashoffset", frames := nums [0] }] },
    { name := "TechnicalArrow head",
      animate := AnimateProp.targets
        [{ attr := "opacity", frames := nums [1] }, { attr := "scale", frames := nums [1] }] },
    { name := "TechnicalArrow label",
      animate := AnimateProp.targets [{ attr := "opacity", frames := nums [1] }] } ]

/-- The elements drawn for one ring position (lines 335-414). -/
def ringPair : List SceneElement :=
  [ { name := "30m OD ring",
      animate := AnimateProp.targets
        [{ attr := "strokeWidth", frames := nums [3, 6, 3] },
         { attr := "opacity", frames := nums [7 / 10, 1, 7 / 10] }] },
    { name := "Inner 10m aperture",
      animate := AnimateProp.targets
        [{ attr := "strokeDashoffset", frames := nums [0, -20] },
         { attr := "opacity", frames := nums [4 / 10, 8 / 10, 4 / 10] }] },
    { name := "Superconducting coil",
      animate := AnimateProp.targets
        [{ attr := "scale", frames := nums [0, 12 / 10, 1, 11 / 10, 1] },
         { attr := "opacity", frames := nums [0, 6 / 10, 4 / 10, 6 / 10, 4 / 10] }] },
    { name := "Quick-release mechanism",
      animate := AnimateProp.targets
        [{ attr := "scale", frames := nums [8 / 10, 12 / 10, 8 / 10] },
         { attr := "rotate", frames := nums [0, 90, 180, 270, 360] }] } ]

/-- The elements drawn for one of the four booms (lines 312-418): the boom and
its two ring positions. -/
def boom : List SceneElement :=
  { name := "Boom structure",
    animate := AnimateProp.targets
      [{ attr := "opacity", frames := nums [6 / 10, 1, 6 / 10] }] } :: (ringPair ++ ringPair)

/-- The elements drawn for one of the four approach corridors (lines 432-471). -/
def corridor : List SceneElement :=
  [ { name := "Approach corridor",
      animate := AnimateProp.targets
        [{ attr := "opacity", frames := nums [2 / 10, 5 / 10, 2 / 10] },
         { attr := "strokeWidth", frames := nums [15, 25, 15] }] },
    { name := "Guidance beacon",
      animate := AnimateProp.targets
        [{ attr := "scale", frames := nums [5 / 10, 15 / 10, 5 / 10] },
         { attr := "opacity", frames := nums [6 / 10, 1, 6 / 10] }] } ]

/-- One of the two energy flow paths (lines 476-502). -/
def energyFlowPath : SceneElement :=
  { name := "Energy flow",
    animate := AnimateProp.targets
      [{ attr := "strokeDasharray",
         frames := [Frame.text "0 100", Frame.text "50 50", Frame.text "100 0"] },
       { attr := "strokeWidth", frames := nums [4, 8, 4] }] }

/-- The three elements of one technical annotation (lines 667-705). -/
def annotation : List SceneElement :=
  [ { name := "Annotation box",
      animate := AnimateProp.targets
        [{ attr := "opacity", frames := nums [1] }, { attr := "scale", frames := nums [1] }] },
    { name := "Annotation text",
      animate := AnimateProp.targets [{ attr := "opacity", frames := nums [1] }] },
    { name := "Annotation subtext",
      animate := AnimateProp.targets [{ attr := "opacity", frames := nums [1] }] } ]

/-- Lines 254-707: the animated elements of the SVG overlay with the targets of
their `animate` props, in source order, as rendered for a Run State.  Fixed
geometry, colours and transition timings are constants of the source and are
left out. -/
def svgOverlay (rs : RunState) : List SceneElement :=
  [ { name := "Central Hub X",
      animate := AnimateProp.targets
        [{ attr := "strokeWidth", frames := nums [2, 4, 2] },
         { attr := "opacity", frames := nums [8 / 10, 1, 8 / 10] }] } ]
  ++ (List.replicate 4 boom).flatten
  ++ (List.replicate 4 corridor).flatten
  ++ [energyFlowPath, energyFlowPath]
  ++ [ { name := "Energy storage",
         animate := AnimateProp.targets
           [{ attr := "strokeWidth", frames := nums [2, 4, 2] },
            { attr := "opacity", frames := nums [6 / 10, 1, 6 / 10] }] },
       { name := "Energy level indicator",
         animate := AnimateProp.targets
           [{ attr := "height", frames := nums [10, storageHeight rs.energyLevel, 10] },
            { attr := "y", frames := nums [480, storageY rs.energyLevel, 480] }] } ]
  ++ List.replicate 6
       { name := "Cooling radiator",
         animate := AnimateProp.targets
           [{ attr := "height", frames := nums [60, 100, 60] },
            { attr := "opacity", frames := nums [4 / 10, 8 / 10, 4 / 10] }] }
  ++ List.replicate 2
       { name := "Solar array",
         animate := AnimateProp.targets
           [{ attr := "opacity", frames := nums [6 / 10, 1, 6 / 10] }] }
  ++ (List.replicate 3 technicalArrow).flatten
  ++ List.replicate 8
       { name := "Magnetic field line",
         animate := AnimateProp.targets
           [{ attr := "strokeDashoffset", frames := nums [0, -40] },
            { attr := "opacity", frames := nums [1 / 10, 4 / 10, 1 / 10] }] }
  ++ [ { name := "Emergency jettison",
         animate := AnimateProp.targets
           [{ attr := "x", frames := nums [0, -80, -200, -400] },
            { attr := "y", frames := nums [0, -20, -60, -120] },
            { attr := "opacity", frames := nums [8 / 10, 6 / 10, 3 / 10, 0] },
            { attr := "rotate", frames := nums [0, -30, -90, -180] }] } ]
  ++ (List.replicate 4 annotation).flatten

/-- The animation targets that `playSequence` passes to `controls.start` for the
four phases (lines 30-67). -/
def phaseTargets : List (List String) :=
  [ ["guidanceBeacon", "approachGlow"],
    ["magneticField", "coilGlow", "fieldLines"],
    ["energyFlow", "storageCharge", "eddyCurrents"],
    ["ringJettison", "emergencyProtocol", "attitudeCorrection"] ]

/-- The elements of the overlay that follow `controls`, that is, that would show
the targets of `controls.start`. -/
def controlled (scene : List SceneElement) : List SceneElement :=
  scene.filter (fun el => el.animate == AnimateProp.controls)

/-- The attributes some element of the scene animates. -/
def animatedAttrs (scene : List SceneElement) : List String :=
  (scene.map (fun el =>
    match el.animate with
    | AnimateProp.targets ts => ts.map Target.attr
    | AnimateProp.controls => [])).flatten

/-- Line 235: the width of the progress bar in percent,
`((currentStep + 1) / animationSteps.length) * 100`. -/
def progressWidth (currentStep : Nat) : ℚ :=
  ((currentStep + 1 : ℚ) / (animationSteps.length : ℚ)) * 100

/-- What the phase indicator shows (lines 225-235): the label
`animationSteps[currentStep]` (absent when the index is out of range), the numbers
of "Phase n of m", and the width of the bar in percent. -/
structure PhaseIndicator where
  label : Option String
  phase : Nat
  total : Nat
  width : ℚ
  deriving DecidableEq

/-- Lines 217-240: the phase indicator is rendered only while `playing`. -/
def phaseIndicator (rs : RunState) : Option PhaseIndicator :=
  if rs.playing then
    some { label := animationSteps[rs.currentStep]?
           phase := rs.currentStep + 1
           total := animationSteps.length
           width := progressWidth rs.currentStep }
  else none

/-- The three buttons of the page: the sequence button of the header (lines
190-197) and the two export buttons (lines 860-873). -/
inductive Button where
  | sequence
  | exportSVG
  | exportJSON
  deriving DecidableEq, Repr

/-- The `onClick` prop of a button: `togglePlay` for the sequence button (line
191); the export buttons have no `onClick` prop (they have `whileHover` and
`whileTap` styles only). -/
def Button.onClick : Button → Option (State → State)
  | Button.sequence => some togglePlay
  | Button.exportSVG => none
  | Button.exportJSON => none

/-- A click on a button: its handler runs, if it has one. -/
def press (b : Button) (s : State) : State :=
  match b.onClick with
  | some handler => handler s
  | none => s

/-- The component inside React: the effect of lines 90-93, which runs at every
mount and whose cleanup runs at every unmount, and the browser table of pending
`setTimeout` timers.  `timer` is the `const timer` that the cleanup of the
effect in place would clear; `mounts`, `cancelled` and `autoStarts` count the
runs of the effect, the timers cleared while still pending, and the calls of
`playSequence` made by a timer callback. -/
structure Host where
  comp : State
  timeouts : List Nat
  nextTimeout : Nat
  timer : Option Nat
  mounts : Nat
  cancelled : Nat
  autoStarts : Nat
  deriving DecidableEq

/-- What React and the browser do to the mount effect. -/
inductive HostEvent where
  | mount
  | cleanup
  | fire (h : Nat)
  deriving DecidableEq, Repr

/-- Before the first mount: no timer, nothing running. -/
def hostInit : Host :=
  { comp := { init with autoTimer := false }, timeouts := [], nextTimeout := 0,
    timer := none, mounts := 0, cancelled := 0, autoStarts := 0 }

/-- One event of the effect.  `mount` (no effect in place) runs line 91:
`setTimeout` schedules one new timer and `timer` holds its handle.  `cleanup`
(an effect is in place) runs line 92: `clearTimeout(timer)`.  `fire h` is timer
`h` going off after 2 s while it is pending: its callback calls `playSequence`.
The field `autoTimer` of the component says whether a timer is pending. -/
def hostStep (w : Host) : HostEvent → Option Host
  | HostEvent.mount =>
      match w.timer with
      | some _ => none
      | none =>
          some { w with
            comp := { w.comp with autoTimer := true }
            timeouts := w.timeouts ++ [w.nextTimeout]
            nextTimeout := w.nextTimeout + 1
            timer := some w.nextTimeout
            mounts := w.mounts + 1 }
  | HostEvent.cleanup =>
      match w.timer with
      | none => none
      | some h =>
          some { w with
            comp := { w.comp with
              autoTimer := !(w.timeouts.filter (fun j => j != h)).isEmpty }
            timeouts := w.timeouts.filter (fun j => j != h)
            timer := none
            cancelled := w.cancelled + (if h ∈ w.timeouts then 1 else 0) }
  | HostEvent.fire h =>
      if h ∈ w.timeouts then
        some { w with
          comp := playSequence { w.comp with
            autoTimer := !(w.timeouts.filter (fun j => j != h)).isEmpty }
          timeouts := w.timeouts.filter (fun j => j != h)
          autoStarts := w.autoStarts + 1 }
      else none

/-- A sequence of events of the effect, from left to right. -/
def hostRun (w : Host) : List HostEvent → Option Host
  | [] => some w
  | e :: es =>
    match hostStep w e with
    | none => none
    | some w1 => hostRun w1 es

/-- What `React.StrictMode` (`main.jsx`, lines 6-10) does to the effect in
development: mount, cleanup, mount. -/
def strictModeMount : List HostEvent :=
  [HostEvent.mount, HostEvent.cleanup, HostEvent.mount]

/-- The bookkeeping of the effect: at most the timer of the effect in place is
pending, every timer ever scheduled has fired, was cancelled or is pending, and
the in-flight calls are those made by timer callbacks. -/
def HostInv (w : Host) : Prop :=
  (w.timeouts = [] ∨ ∃ k, w.timeouts = [k] ∧ w.timer = some k) ∧
    w.autoStarts + w.cancelled + w.timeouts.length = w.mounts ∧
    w.comp.invocations.length = w.autoStarts

/-- A task of the browser's event loop that runs code of the component: a click
on the sequence button, the auto-start timer going off, a firing of interval
`h`. -/
inductive PageTask where
  | click
  | autoStart
  | tick (h : Nat)
  deriving DecidableEq, Repr

/-- The handler a task runs, as an event of the component. -/
def PageTask.event : PageTask → Event
  | PageTask.click => Event.click
  | PageTask.autoStart => Event.autoStart
  | PageTask.tick h => Event.tick h

/-- The microtasks that end a task.  The object `controls` of line 6 is passed to
no element of the page: it occurs only in lines 30-70 (`controls.start`) and in
line 80 (`controls.stop`).  With no element to animate, the promise returned by
`controls.start` is settled when it is awaited, and each `await` resumes the
call in a microtask of the same task.  `settle` resumes the first call in flight
until no call is left; `fuel` bounds the number of resumptions. -/
def settle : Nat → State → State
  | 0, s => s
  | fuel + 1, s =>
    match resume s 0 with
    | some s1 => settle fuel s1
    | none => s

/-- The states the component goes through in the microtasks of a task, first to
last: as `settle`, keeping every state on the way. -/
def settleTrace : Nat → State → List State
  | 0, s => [s]
  | fuel + 1, s =>
    match resume s 0 with
    | some s1 => s :: settleTrace fuel s1
    | none => [s]

/-- One task, run to completion: the handler, then the microtasks.  A call of
`playSequence` has five awaits, so five resumptions for each call in flight are
enough.  `none` when the task cannot happen in `s`. -/
def taskStep (s : State) (t : PageTask) : Option State :=
  (step s t.event).map (fun s1 => settle (5 * s1.invocations.length) s1)

/-- Every state the component goes through during one task, first to last. -/
def microStates (s : State) (t : PageTask) : List State :=
  match step s t.event with
  | none => []
  | some s1 => settleTrace (5 * s1.invocations.length) s1

/-- A sequence of tasks, from left to right. -/
def runTasks (s : State) : List PageTask → Option State
  | [] => some s
  | t :: ts =>
    match taskStep s t with
    | none => none
    | some s1 => runTasks s1 ts

/-- The state of the page at time `t`, given the times at which the browser
runs the tasks of the component (in order): the tasks due by `t` have run, each
to completion. -/
def pageAt (sched : List (ℚ × PageTask)) (t : ℚ) : Option State :=
  runTasks init ((sched.filter (fun x => decide (x.1 ≤ t))).map Prod.snd)

/-- How many of the tasks are interval firings. -/
def countTicks : List PageTask → Nat
  | [] => 0
  | PageTask.tick _ :: ts => countTicks ts + 1
  | _ :: ts => countTicks ts

/-- What holds of the component between two tasks: nothing is running. -/
def Idle (s : State) : Prop :=
  s.playing = false ∧ s.currentStep = 0 ∧ s.energyLevel = 0 ∧ s.intervals = [] ∧
    s.invocations = []

/-- A sample run after `playSequence`, up to `clearInterval`: two awaited
promises settle, the interval ticks twice, the third promise settles. -/
def throughClear : List Event :=
  [Event.animationDone 0, Event.animationDone 0, Event.tick 0, Event.tick 0,
   Event.animationDone 0]

/-- The rest of that run: the last two awaited promises settle. -/
def afterClear : List Event := [Event.animationDone 0, Event.animationDone 0]

/-- A sample history of the page: the user clicks before the auto-start timer
goes off, and clicks again later. -/
def clickTimerClick : List PageTask :=
  [PageTask.click, PageTask.autoStart, PageTask.click]


/-- A sample run after `playSequence`, through to the end of the call: two
awaited promises settle, the interval ticks twice, the other three settle. -/
def tickedFullRun : List Event :=
  [Event.animationDone 0, Event.animationDone 0, Event.tick 0, Event.tick 0,
   Event.animationDone 0, Event.animationDone 0, Event.animationDone 0]


/-- A sample schedule: the user clicks the sequence button at time 0 and nothing
else happens. -/
def clickAtZero : List (ℚ × PageTask) := [(0, PageTask.click)]

/-! ## Helper lemmas -/

theorem run_cons (s : State) (e : Event) (es : List Event) :
    run s (e :: es) = (step s e).bind (fun s1 => run s1 es) := by
  simp only [run]
  cases step s e <;> rfl

/-- A property that holds initially and is kept by every event holds after every
sequence of events. -/
theorem run_invariant (P : State → Prop)
    (hstep : ∀ s e s1, P s → step s e = some s1 → P s1) :
    ∀ (evs : List Event) (s s1 : State), P s → run s evs = some s1 → P s1 := by
  intro evs
  induction evs with
  | nil =>
    intro s s1 hP h
    simp [run] at h
    exact h ▸ hP
  | cons e es ih =>
    intro s s1 hP h
    rw [run_cons] at h
    cases hs : step s e with
    | none => simp [hs] at h
    | some s2 =>
      simp [hs] at h
      exact ih s2 s1 (hstep s e s2 hP hs) h

theorem energyTick_bounds (e : ℚ) (h0 : 0 ≤ e) :
    0 ≤ energyTick e ∧ energyTick e ≤ 91 / 10 := by
  unfold energyTick
  constructor
  · apply le_min
    · linarith
    · norm_num
  · exact min_le_right _ _

/-- What `resume` can do to the Run State: it writes one of the phase indices
0..3 (or nothing) to `currentStep` and never writes `energyLevel`. -/
theorem resume_runState (s s1 : State) (i : Nat) (h : resume s i = some s1) :
    s1.energyLevel = s.energyLevel ∧ (s1.currentStep ≤ 3 ∨ s1.currentStep = s.currentStep) := by
  unfold resume at h
  cases hg : s.invocations[i]? with
  | none => simp [hg] at h
  | some inv =>
    simp only [hg] at h
    cases hp : inv.pc <;> simp only [hp] at h
    · cases h; simp
    · cases h; simp
    · cases h
      cases inv.energyCapture <;> simp [clearInterval]
    · cases h; simp
    · cases h; simp

theorem playSequence_eq_solo (s0 : State) : playSequence s0 = soloState s0 0 0 := by
  simp [playSequence, soloState, awaitAfter, List.range_succ]

theorem countDone_cons (ev : Event) (es : List Event) :
    countDone (ev :: es) = countDone [ev] + countDone es := by
  cases ev <;> simp [countDone]
  omega

/-- The handle the next `setInterval` returns is not in use: in every reachable
state all active intervals have a smaller handle. -/
theorem nextHandle_fresh (evs : List Event) (s : State) (h : run init evs = some s) :
    s.nextHandle ∉ s.intervals := by
  have hlt : ∀ j ∈ s.intervals, j < s.nextHandle := by
    refine run_invariant (fun s => ∀ j ∈ s.intervals, j < s.nextHandle) ?_ evs init s
      (by simp [init]) h
    intro s e s1 hP hs
    cases e with
    | click =>
      simp only [step, Option.some.injEq] at hs
      subst hs
      unfold togglePlay
      split
      · exact hP
      · exact hP
    | autoStart =>
      simp only [step] at hs
      split at hs
      · cases hs
        exact hP
      · simp at hs
    | tick t =>
      simp only [step] at hs
      split at hs
      · cases hs
        exact hP
      · simp at hs
    | animationDone i =>
      simp only [step] at hs
      unfold resume at hs
      cases hg : s.invocations[i]? with
      | none => simp [hg] at hs
      | some inv =>
        simp only [hg] at hs
        cases hp : inv.pc <;> simp only [hp] at hs
        · cases hs; exact hP
        · cases hs
          intro j hj
          simp only [List.mem_append, List.mem_singleton] at hj
          rcases hj with hj | hj
          · exact Nat.lt_succ_of_lt (hP j hj)
          · simp [hj]
        · cases hs
          cases hc : inv.energyCapture with
          | none => simpa [clearInterval] using hP
          | some c =>
            intro j hj
            simp only [clearInterval, List.mem_filter] at hj
            exact hP j hj.1
        · cases hs; exact hP
        · cases hs; exact hP
  intro hmem
  exact Nat.lt_irrefl _ (hlt _ hmem)

theorem nextHandle_fresh_witness :
    ∃ s, run init twoTicks = some s ∧ s.intervals = [0] ∧ s.nextHandle = 1 ∧
      s.nextHandle ∉ s.intervals :=
  ⟨_, rfl, rfl, rfl, nextHandle_fresh twoTicks _ rfl⟩

/-- The calls of `setCurrentStep` of a call of `playSequence` are made in program
order: in every reachable state, whatever the interleaving with clicks, the
auto-start, ticks and other calls, each in-flight call has written exactly the
phase indices from 0 up to the phase whose animation it awaits. -/
theorem writes_in_order (evs : List Event) (s : State) (h : run init evs = some s) :
    ∀ inv ∈ s.invocations, inv.writes = List.range (inv.pc.phase + 1) := by
  have hstart : ∀ s : State, (∀ inv ∈ s.invocations, inv.writes = List.range (inv.pc.phase + 1)) →
      ∀ inv ∈ (playSequence s).invocations, inv.writes = List.range (inv.pc.phase + 1) := by
    intro s hP inv hinv
    simp only [playSequence, List.mem_append, List.mem_singleton] at hinv
    rcases hinv with hinv | rfl
    · exact hP inv hinv
    · rfl
  refine run_invariant
    (fun s => ∀ inv ∈ s.invocations, inv.writes = List.range (inv.pc.phase + 1)) ?_ evs init s
    (by simp [init]) h
  intro s e s1 hP hs
  cases e with
  | click =>
    simp only [step, Option.some.injEq] at hs
    subst hs
    unfold togglePlay
    split
    · intro inv hinv
      simp only [List.mem_map] at hinv
      obtain ⟨inv0, hmem, rfl⟩ := hinv
      exact hP inv0 hmem
    · exact hstart s hP
  | autoStart =>
    simp only [step] at hs
    split at hs
    · cases hs
      exact hstart _ hP
    · simp at hs
  | tick t =>
    simp only [step] at hs
    split at hs
    · cases hs
      exact hP
    · simp at hs
  | animationDone i =>
    simp only [step] at hs
    unfold resume at hs
    cases hg : s.invocations[i]? with
    | none => simp [hg] at hs
    | some inv0 =>
      have h0 := hP inv0 (List.getElem?_mem hg)
      simp only [hg] at hs
      cases hp : inv0.pc <;> simp only [hp] at hs
      · cases hs
        intro inv hinv
        rcases List.mem_or_eq_of_mem_set hinv with hm | rfl
        · exact hP inv hm
        · simp [h0, hp, Await.phase, List.range_succ]
      · cases hs
        intro inv hinv
        rcases List.mem_or_eq_of_mem_set hinv with hm | rfl
        · exact hP inv hm
        · simp [h0, hp, Await.phase, List.range_succ]
      · cases hs
        intro inv hinv
        have hinv2 : inv ∈ s.invocations.set i
            { inv0 with pc := Await.ringJettison, stopped := false,
                        writes := inv0.writes ++ [3] } := by
          cases hc : inv0.energyCapture <;> simpa [clearInterval, hc] using hinv
        rcases List.mem_or_eq_of_mem_set hinv2 with hm | rfl
        · exact hP inv hm
        · simp [h0, hp, Await.phase, List.range_succ]
      · cases hs
        intro inv hinv
        rcases List.mem_or_eq_of_mem_set hinv with hm | rfl
        · exact hP inv hm
        · simp [h0, hp, Await.phase]
      · cases hs
        intro inv hinv
        exact hP inv (List.mem_of_mem_eraseIdx hinv)

/-- Clearing a fresh handle right after adding it gives back the old table. -/
theorem filter_fresh (l : List Nat) (k : Nat) (hk : k ∉ l) :
    (l ++ [k]).filter (fun j => j != k) = l := by
  rw [List.filter_append]
  have h1 : l.filter (fun j => j != k) = l := by
    apply List.filter_eq_self.2
    intro j hj
    have : j ≠ k := fun hjk => hk (hjk ▸ hj)
    simpa using this
  simp [h1]

/-! ## The claims -/

/-- C3 (energyLevel is bounded in every reachable state): after every sequence of
events from the initial state, `0 ≤ energyLevel ≤ 9.1`. -/
theorem energyLevel_bounded (evs : List Event) (s : State) (h : run init evs = some s) :
    0 ≤ s.energyLevel ∧ s.energyLevel ≤ 91 / 10 := by
  refine run_invariant (fun s => 0 ≤ s.energyLevel ∧ s.energyLevel ≤ 91 / 10) ?_ evs init s
    (by simp [init]; norm_num) h
  intro s e s1 hP hs
  cases e with
  | click =>
    simp only [step, Option.some.injEq] at hs
    subst hs
    unfold togglePlay
    split
    · simp; norm_num
    · simp [playSequence]; norm_num
  | autoStart =>
    simp only [step] at hs
    split at hs
    · cases hs
      simp [playSequence]; norm_num
    · simp at hs
  | animationDone i =>
    have := (resume_runState s s1 i hs).1
    rw [this]
    exact hP
  | tick t =>
    simp only [step] at hs
    split at hs
    · cases hs
      exact energyTick_bounds _ hP.1
    · simp at hs

theorem energyLevel_bounded_witness :
    ∃ s, run init twoTicks = some s ∧
      s.energyLevel = 3 / 10 ∧ 0 ≤ s.energyLevel ∧ s.energyLevel ≤ 91 / 10 :=
  ⟨_, rfl, by show energyTick (energyTick 0) = 3 / 10; norm_num [energyTick],
    energyLevel_bounded twoTicks _ rfl⟩

/-- C4 (effect of stop): from every state with `playing = true`, whatever
`currentStep` and `energyLevel` are, `togglePlay` leaves the Run State
`playing = false, currentStep = 0, energyLevel = 0`, the Run State at mount. -/
theorem togglePlay_stop_resets (s : State) (h : s.playing = true) :
    (togglePlay s).runState = { playing := false, currentStep := 0, energyLevel := 0 } ∧
      (togglePlay s).runState = init.runState := by
  simp [togglePlay, h, State.runState, init]

theorem togglePlay_stop_resets_witness :
    (togglePlay { init with playing := true, currentStep := 2, energyLevel := 3 / 10 }).runState
        = { playing := false, currentStep := 0, energyLevel := 0 } ∧
      (togglePlay { init with playing := true, currentStep := 2, energyLevel := 3 / 10 }).runState
        = init.runState :=
  togglePlay_stop_resets { init with playing := true, currentStep := 2, energyLevel := 3 / 10 } rfl

/-- C5 (effect of start): from every prior state, right after the synchronous
prefix of `playSequence` the Run State is `playing = true, currentStep = 0,
energyLevel = 0`, and the new call is suspended at its first awaited animation. -/
theorem playSequence_start (s : State) :
    (playSequence s).runState = { playing := true, currentStep := 0, energyLevel := 0 } ∧
      (playSequence s).invocations = s.invocations ++
        [{ pc := Await.approach, energyCapture := none, stopped := false,
           writes := [0] }] := by
  simp [playSequence, State.runState]

/-- C9 (currentStep is always a valid phase index): after every sequence of events
from the initial state, `currentStep ≤ 3 = animationSteps.length - 1`, so the
lookup `animationSteps[currentStep]` of line 225 is defined. -/
theorem currentStep_valid (evs : List Event) (s : State) (h : run init evs = some s) :
    s.currentStep ≤ 3 ∧ animationSteps.length - 1 = 3 ∧
      (animationSteps[s.currentStep]?).isSome = true := by
  have hle : s.currentStep ≤ 3 := by
    refine run_invariant (fun s => s.currentStep ≤ 3) ?_ evs init s (by simp [init]) h
    intro s e s1 hP hs
    cases e with
    | click =>
      simp only [step, Option.some.injEq] at hs
      subst hs
      unfold togglePlay
      split
      · simp
      · simp [playSequence]
    | autoStart =>
      simp only [step] at hs
      split at hs
      · cases hs
        simp [playSequence]
      · simp at hs
    | animationDone i =>
      rcases (resume_runState s s1 i hs).2 with h3 | heq
      · exact h3
      · rw [heq]; exact hP
    | tick t =>
      simp only [step] at hs
      split at hs
      · cases hs
        exact hP
      · simp at hs
  refine ⟨hle, rfl, ?_⟩
  have hlt : s.currentStep < animationSteps.length := by
    simp [animationSteps]
    omega
  simp [List.getElem?_eq_getElem hlt]

theorem currentStep_valid_witness :
    ∃ s, run init twoTicks = some s ∧ s.currentStep = 2 ∧
      animationSteps[s.currentStep]? = some "Kinetic Energy Conversion" ∧
      (s.currentStep ≤ 3 ∧ animationSteps.length - 1 = 3 ∧
        (animationSteps[s.currentStep]?).isSome = true) :=
  ⟨_, rfl, rfl, rfl, currentStep_valid twoTicks _ rfl⟩

/-- In every reachable state the energy level lies between 0 and 9.1 (shared by
the statements about single transitions). -/
theorem reachable_energy_range (evs : List Event) (s : State) (h : run init evs = some s) :
    0 ≤ s.energyLevel ∧ s.energyLevel ≤ 91 / 10 := by
  refine run_invariant (fun s => 0 ≤ s.energyLevel ∧ s.energyLevel ≤ 91 / 10) ?_ evs init s
    (by simp [init]; norm_num) h
  intro s e s1 hP hs
  cases e with
  | click =>
    simp only [step, Option.some.injEq] at hs
    subst hs
    unfold togglePlay
    split
    · simp; norm_num
    · simp [playSequence]; norm_num
  | autoStart =>
    simp only [step] at hs
    split at hs
    · cases hs
      simp [playSequence]; norm_num
    · simp at hs
  | animationDone i =>
    rw [(resume_runState s s1 i hs).1]
    exact hP
  | tick t =>
    simp only [step] at hs
    split at hs
    · cases hs
      exact energyTick_bounds _ hP.1
    · simp at hs

/-- A tick never lowers a value that is at most 9.1 and raises a value that is
below 9.1. -/
theorem energyTick_mono (e : ℚ) (h : e ≤ 91 / 10) :
    e ≤ energyTick e ∧ (e < 91 / 10 → e < energyTick e) := by
  unfold energyTick
  constructor
  · exact le_min (by linarith) h
  · intro hlt
    exact lt_min (by linarith) hlt

/-- C11 (energyLevel only increases or resets): for every transition from a
reachable state the new `energyLevel` is at least the old one or exactly 0; it
drops only to 0 and only by a click or the auto-start (start or stop); a tick never
lowers it and raises it while it is below 9.1. -/
theorem energyLevel_increases_or_resets (evs : List Event) (s : State) (ev : Event)
    (s1 : State) (hr : run init evs = some s) (hs : step s ev = some s1) :
    (s.energyLevel ≤ s1.energyLevel ∨ s1.energyLevel = 0) ∧
      (s1.energyLevel < s.energyLevel →
        s1.energyLevel = 0 ∧ (ev = Event.click ∨ ev = Event.autoStart)) ∧
      (∀ t, ev = Event.tick t →
        s.energyLevel ≤ s1.energyLevel ∧
          (s.energyLevel < 91 / 10 → s.energyLevel < s1.energyLevel)) := by
  have hb := reachable_energy_range evs s hr
  cases ev with
  | click =>
    simp only [step, Option.some.injEq] at hs
    have h0 : s1.energyLevel = 0 := by
      subst hs
      unfold togglePlay
      split <;> simp [playSequence]
    exact ⟨Or.inr h0, fun _ => ⟨h0, Or.inl rfl⟩, fun t ht => by cases ht⟩
  | autoStart =>
    simp only [step] at hs
    split at hs
    · have h0 : s1.energyLevel = 0 := by
        cases hs
        simp [playSequence]
      exact ⟨Or.inr h0, fun _ => ⟨h0, Or.inr rfl⟩, fun t ht => by cases ht⟩
    · simp at hs
  | animationDone i =>
    have he := (resume_runState s s1 i hs).1
    exact ⟨Or.inl (le_of_eq he.symm), fun hlt => absurd hlt (by rw [he]; exact lt_irrefl _),
      fun t ht => by cases ht⟩
  | tick t =>
    simp only [step] at hs
    split at hs
    · cases hs
      have hm := energyTick_mono s.energyLevel hb.2
      exact ⟨Or.inl hm.1, fun hlt => absurd hlt (not_lt.mpr hm.1), fun _ _ => hm⟩
    · simp at hs

theorem energyLevel_increases_or_resets_witness :
    ∃ s s1, run init [Event.autoStart, Event.animationDone 0, Event.animationDone 0,
        Event.tick 0] = some s ∧ step s (Event.tick 0) = some s1 ∧
      s.energyLevel = 15 / 100 ∧ s1.energyLevel = 3 / 10 ∧
      ((s.energyLevel ≤ s1.energyLevel ∨ s1.energyLevel = 0) ∧
        (s1.energyLevel < s.energyLevel →
          s1.energyLevel = 0 ∧ (Event.tick 0 = Event.click ∨ Event.tick 0 = Event.autoStart)) ∧
        (∀ t, Event.tick 0 = Event.tick t →
          s.energyLevel ≤ s1.energyLevel ∧
            (s.energyLevel < 91 / 10 → s.energyLevel < s1.energyLevel))) :=
  ⟨_, _, rfl, rfl, by show energyTick 0 = 15 / 100; norm_num [energyTick],
    by show energyTick (energyTick 0) = 3 / 10; norm_num [energyTick],
    energyLevel_increases_or_resets
      [Event.autoStart, Event.animationDone 0, Event.animationDone 0, Event.tick 0]
      _ (Event.tick 0) _ rfl rfl⟩

/-- A tick of a value capped at 9.1 is the cap of the value raised by 0.15. -/
theorem energyTick_min (a : ℚ) :
    energyTick (min a (91 / 10)) = min (a + 15 / 100) (91 / 10) := by
  unfold energyTick
  rcases le_total a (91 / 10) with h | h
  · rw [min_eq_left h]
  · rw [min_eq_right h, min_eq_right (by linarith), min_eq_right (by linarith)]

/-- The value after `n` ticks from 0, in closed form. -/
theorem iterate_energyTick (n : Nat) :
    energyTick^[n] 0 = min (15 / 100 * (n : ℚ)) (91 / 10) := by
  induction n with
  | zero => norm_num
  | succ k ih =>
    rw [Function.iterate_succ_apply', ih, energyTick_min]
    congr 1
    push_cast
    ring

/-- The ticks of an active interval act on `energyLevel` only: `n` of them in a
row apply the tick function `n` times. -/
theorem run_ticks (h : Nat) (n : Nat) :
    ∀ s : State, h ∈ s.intervals →
      run s (List.replicate n (Event.tick h)) =
        some { s with energyLevel := energyTick^[n] s.energyLevel } := by
  induction n with
  | zero => intro s _; rfl
  | succ k ih =>
    intro s hs
    rw [List.replicate_succ, run_cons]
    simp only [step, hs, if_true, Option.some_bind]
    have h2 := ih { s with energyLevel := energyTick s.energyLevel } hs
    rw [h2]
    simp [Function.iterate_succ_apply]

/-- C17 (closed form of the accumulator): starting from 0, after `n` consecutive
ticks the value is exactly `min (0.15 * n) 9.1`; it is below 9.1 for `n < 61`,
equals 9.1 for every `n ≥ 61`, and 9.1 is a fixed point of the tick.  In the
component: `n` ticks of an active interval from `energyLevel = 0` give that
value. -/
theorem accumulator_closed_form (n : Nat) :
    energyTick^[n] 0 = min (15 / 100 * (n : ℚ)) (91 / 10) ∧
      (n < 61 → energyTick^[n] 0 < 91 / 10) ∧
      (61 ≤ n → energyTick^[n] 0 = 91 / 10) ∧
      energyTick (91 / 10) = 91 / 10 ∧
      (∀ (s : State) (h : Nat), h ∈ s.intervals → s.energyLevel = 0 →
        ∃ s1, run s (List.replicate n (Event.tick h)) = some s1 ∧
          s1.energyLevel = min (15 / 100 * (n : ℚ)) (91 / 10)) := by
  refine ⟨iterate_energyTick n, fun hn => ?_, fun hn => ?_, ?_, fun s h hs h0 => ?_⟩
  · rw [iterate_energyTick]
    have : (n : ℚ) ≤ 60 := by exact_mod_cast Nat.le_of_lt_succ hn
    exact lt_of_le_of_lt (min_le_left _ _) (by linarith)
  · rw [iterate_energyTick]
    have : (61 : ℚ) ≤ n := by exact_mod_cast hn
    exact min_eq_right (by linarith)
  · norm_num [energyTick]
  · refine ⟨_, run_ticks h n s hs, ?_⟩
    simp only [h0]
    exact iterate_energyTick n

/-- C12, as stated, fails: the user has started and then stopped the sequence
before the 2 s timer fires (`playing` is false again); the timer still calls
`playSequence` and the sequence starts. -/
theorem autoStart_after_user_stop :
    ∃ s s1, run init startThenStop = some s ∧ s.playing = false ∧ s.autoTimer = true ∧
      step s Event.autoStart = some s1 ∧
      s1 = playSequence { s with autoTimer := false } ∧ s1.playing = true :=
  ⟨_, _, rfl, rfl, rfl, rfl, rfl, rfl⟩

/-- C12, amended: the auto-start keeps no record of what the user did.  Whenever
its timer is still pending and the sequence is not running, the timer firing
calls `playSequence` and starts the sequence (`playing = true`, phase 0, energy
0); after that the timer is spent and cannot fire again. -/
theorem autoStart_unconditional (s : State) (ht : s.autoTimer = true)
    (_hp : s.playing = false) :
    ∃ s1, step s Event.autoStart = some s1 ∧
      s1 = playSequence { s with autoTimer := false } ∧
      s1.runState = { playing := true, currentStep := 0, energyLevel := 0 } ∧
      s1.invocations.length = s.invocations.length + 1 ∧
      step s1 Event.autoStart = none := by
  refine ⟨_, by simp [step, ht], rfl, ?_, ?_, ?_⟩
  · simp [playSequence, State.runState]
  · simp [playSequence]
  · simp [step, playSequence]

theorem autoStart_unconditional_witness :
    ∃ s, run init startThenStop = some s ∧
      ∃ s1, step s Event.autoStart = some s1 ∧
        s1 = playSequence { s with autoTimer := false } ∧
        s1.runState = { playing := true, currentStep := 0, energyLevel := 0 } ∧
        s1.invocations.length = s.invocations.length + 1 ∧
        step s1 Event.autoStart = none :=
  ⟨_, rfl, autoStart_unconditional _ rfl rfl⟩

theorem toFixed1_zero : toFixed1 0 = "0.0" := by
  have h : ⌊|(0 : ℚ)| * 10 + 1 / 2⌋ = 0 := by
    rw [Int.floor_eq_iff]; norm_num
  simp only [toFixed1, h]
  decide

theorem toFixed1_three_tenths : toFixed1 (3 / 10) = "0.3" := by
  have h : ⌊|(3 / 10 : ℚ)| * 10 + 1 / 2⌋ = 3 := by
    rw [Int.floor_eq_iff]
    constructor <;> norm_num [abs_of_nonneg]
  have hlt : ¬ ((3 / 10 : ℚ) < 0) := by norm_num
  simp only [toFixed1, h, hlt]
  decide

/-- C15, as stated, fails: two Run States that differ in `energyLevel` only give
different values of the first `systemStats` entry, "Energy Captured". -/
theorem energyCaptured_shows_energyLevel :
    (systemStats { playing := true, currentStep := 2, energyLevel := 0 }).map Stat.value
        = ["0.0", "4/4", "10", "15.2"] ∧
      (systemStats { playing := true, currentStep := 2, energyLevel := 3 / 10 }).map Stat.value
        = ["0.3", "4/4", "10", "15.2"] ∧
      systemStats { playing := true, currentStep := 2, energyLevel := 0 } ≠
        systemStats { playing := true, currentStep := 2, energyLevel := 3 / 10 } := by
  have h0 : (systemStats { playing := true, currentStep := 2, energyLevel := 0 }).map
      Stat.value = ["0.0", "4/4", "10", "15.2"] := by
    simp [systemStats, toFixed1_zero]
  have h3 : (systemStats { playing := true, currentStep := 2, energyLevel := 3 / 10 }).map
      Stat.value = ["0.3", "4/4", "10", "15.2"] := by
    simp [systemStats, toFixed1_three_tenths]
  refine ⟨h0, h3, fun heq => ?_⟩
  rw [heq, h3] at h0
  exact absurd h0 (by decide)

/-- C15, amended: for every two Run States the labels and units of the four
`systemStats` entries, the whole of its last three entries, and every entry of
the Crew Operations and Performance Specs panels are the same; the value of the
first entry is `energyLevel.toFixed(1)`, so `systemStats` depends on
`energyLevel` only. -/
theorem info_panels_static_but_energy (rs1 rs2 : RunState) :
    (systemStats rs1).map Stat.label = (systemStats rs2).map Stat.label ∧
      (systemStats rs1).map Stat.unit = (systemStats rs2).map Stat.unit ∧
      (systemStats rs1).tail = (systemStats rs2).tail ∧
      crewOperations rs1 = crewOperations rs2 ∧
      performanceSpecs rs1 = performanceSpecs rs2 ∧
      (systemStats rs1).head? =
        some { label := "Energy Captured", value := toFixed1 rs1.energyLevel,
               unit := "×10¹¹ J" } ∧
      (rs1.energyLevel = rs2.energyLevel → systemStats rs1 = systemStats rs2) := by
  refine ⟨rfl, rfl, rfl, rfl, rfl, rfl, fun h => ?_⟩
  simp [systemStats, h]

/-- C14 (the decorative scene is bound to the current phase): the code does not
do this.  The rendered SVG overlay is the same for any two Run States with the
same `energyLevel`, whatever `currentStep` and `playing` are; no element of the
overlay follows `controls`, and none animates an attribute named by a target of
`controls.start`.  In particular phase 0 and phase 2 render the same overlay. -/
theorem svgOverlay_not_bound_to_phase :
    (∀ rs1 rs2 : RunState, rs1.energyLevel = rs2.energyLevel →
        svgOverlay rs1 = svgOverlay rs2) ∧
      (∀ rs : RunState, controlled (svgOverlay rs) = []) ∧
      (∀ rs : RunState, ∀ t ∈ phaseTargets.flatten, t ∉ animatedAttrs (svgOverlay rs)) ∧
      svgOverlay { playing := true, currentStep := 0, energyLevel := 0 } =
        svgOverlay { playing := true, currentStep := 2, energyLevel := 0 } := by
  refine ⟨fun rs1 rs2 h => ?_, fun rs => ?_, fun rs => ?_, rfl⟩
  · simp [svgOverlay, h]
  · rfl
  · have hattrs : animatedAttrs (svgOverlay rs) =
        animatedAttrs (svgOverlay { playing := false, currentStep := 0, energyLevel := 0 }) :=
      rfl
    rw [hattrs]
    decide

/-- C19 (the storage indicator reflects energyLevel): the indicator element of
the overlay has the height keyframes `[10, max 10 (15 e), 10]` and the y keyframes
`[480, max 480 (490 - 15 e), 480]`.  For `0 ≤ e ≤ 9.1` the peak height lies in
[10, 136.5] and does not decrease when `e` grows, the peak y lies in [480, 490],
and for `e ≥ 2/3` the peak y is 480 and the peak height is `15 e`. -/
theorem storage_indicator (e : ℚ) (h0 : 0 ≤ e) (h1 : e ≤ 91 / 10) :
    (∀ rs : RunState, rs.energyLevel = e →
        { name := "Energy level indicator",
          animate := AnimateProp.targets
            [{ attr := "height", frames := nums [10, max 10 (15 * e), 10] },
             { attr := "y", frames := nums [480, max 480 (490 - 15 * e), 480] }] }
          ∈ svgOverlay rs) ∧
      storageHeight e = max 10 (15 * e) ∧ storageY e = max 480 (490 - 15 * e) ∧
      10 ≤ storageHeight e ∧ storageHeight e ≤ 273 / 2 ∧
      480 ≤ storageY e ∧ storageY e ≤ 490 ∧
      (∀ e2 : ℚ, e ≤ e2 → storageHeight e ≤ storageHeight e2) ∧
      (2 / 3 ≤ e → storageY e = 480 ∧ storageHeight e = 15 * e) := by
  have hH : storageHeight e = max 10 (15 * e) := by rw [storageHeight, mul_comm]
  have hY : storageY e = max 480 (490 - 15 * e) := by rw [storageY, mul_comm]
  refine ⟨fun rs hrs => ?_, hH, hY, ?_, ?_, ?_, ?_, fun e2 he => ?_, fun h23 => ⟨?_, ?_⟩⟩
  · simp [svgOverlay, hrs, hH, hY]
  · exact le_max_left _ _
  · rw [hH]; exact max_le (by norm_num) (by linarith)
  · exact le_max_left _ _
  · rw [hY]; exact max_le (by norm_num) (by linarith)
  · unfold storageHeight
    exact max_le_max (le_refl _) (by linarith)
  · rw [hY]; exact max_eq_left (by linarith)
  · rw [hH]; exact max_eq_right (by linarith)

theorem storage_indicator_witness :
    storageHeight 1 = 15 ∧ storageY 1 = 480 ∧
      ((∀ rs : RunState, rs.energyLevel = 1 →
          { name := "Energy level indicator",
            animate := AnimateProp.targets
              [{ attr := "height", frames := nums [10, max 10 (15 * 1), 10] },
               { attr := "y", frames := nums [480, max 480 (490 - 15 * 1), 480] }] }
            ∈ svgOverlay rs) ∧
        storageHeight 1 = max 10 (15 * 1) ∧ storageY 1 = max 480 (490 - 15 * 1) ∧
        10 ≤ storageHeight 1 ∧ storageHeight 1 ≤ 273 / 2 ∧
        480 ≤ storageY 1 ∧ storageY 1 ≤ 490 ∧
        (∀ e2 : ℚ, 1 ≤ e2 → storageHeight 1 ≤ storageHeight e2) ∧
        (2 / 3 ≤ (1 : ℚ) → storageY 1 = 480 ∧ storageHeight 1 = 15 * 1)) :=
  ⟨by norm_num [storageHeight], by norm_num [storageY],
    storage_indicator 1 (by norm_num) (by norm_num)⟩

/-- The width of the progress bar is 25 percent per phase reached. -/
theorem progressWidth_eq (k : Nat) : progressWidth k = 25 * ((k : ℚ) + 1) := by
  simp [progressWidth, animationSteps]
  ring

/-- C16 (the two Export buttons have no wired behaviour): in every state a click
on the SVG or the JSON export button leaves the whole component state as it is
(Run State, timers, in-flight calls of `playSequence`): neither button has an
`onClick` handler, unlike the sequence button, whose click runs `togglePlay`. -/
theorem export_buttons_inert (s : State) :
    press Button.exportSVG s = s ∧ press Button.exportJSON s = s ∧
      Button.exportSVG.onClick.isNone = true ∧ Button.exportJSON.onClick.isNone = true ∧
      press Button.sequence s = togglePlay s ∧
      step s Event.click = some (press Button.sequence s) :=
  ⟨rfl, rfl, rfl, rfl, rfl, rfl⟩

/-- C18 (progress display follows the phase index): while playing, for a phase
index `k = currentStep` in 0..3 the indicator shows the label of phase `k`,
"Phase k + 1 of 4" and a bar of `(k + 1) / 4 * 100 = 25 (k + 1)` percent; the
widths for 0, 1, 2, 3 are 25, 50, 75, 100: above 0, at most 100, exactly 100 in
the last phase, and larger for a later phase. -/
theorem progress_follows_phase (rs : RunState) (hp : rs.playing = true)
    (hk : rs.currentStep ≤ 3) :
    phaseIndicator rs =
        some { label := animationSteps[rs.currentStep]?
               phase := rs.currentStep + 1
               total := 4
               width := 25 * ((rs.currentStep : ℚ) + 1) } ∧
      (animationSteps[rs.currentStep]?).isSome = true ∧
      0 < progressWidth rs.currentStep ∧ progressWidth rs.currentStep ≤ 100 ∧
      (rs.currentStep = 3 → progressWidth rs.currentStep = 100) ∧
      (∀ j, j < rs.currentStep → progressWidth j < progressWidth rs.currentStep) ∧
      [0, 1, 2, 3].map progressWidth = [25, 50, 75, 100] := by
  have hq : (rs.currentStep : ℚ) ≤ 3 := by exact_mod_cast hk
  have hq0 : (0 : ℚ) ≤ rs.currentStep := Nat.cast_nonneg _
  refine ⟨?_, ?_, ?_, ?_, fun h3 => ?_, fun j hj => ?_, ?_⟩
  · simp [phaseIndicator, hp, progressWidth_eq, animationSteps]
  · have hlt : rs.currentStep < animationSteps.length := by
      simp [animationSteps]
      omega
    simp [List.getElem?_eq_getElem hlt]
  · rw [progressWidth_eq]; linarith
  · rw [progressWidth_eq]; linarith
  · rw [progressWidth_eq, h3]; norm_num
  · rw [progressWidth_eq, progressWidth_eq]
    have : (j : ℚ) < rs.currentStep := by exact_mod_cast hj
    linarith
  · simp [progressWidth_eq]
    norm_num

theorem progress_follows_phase_witness :
    phaseIndicator { playing := true, currentStep := 2, energyLevel := 3 / 10 } =
        some { label := some "Kinetic Energy Conversion", phase := 3, total := 4, width := 75 } ∧
      (phaseIndicator { playing := true, currentStep := 2, energyLevel := 3 / 10 } =
          some { label := animationSteps[2]?
                 phase := 2 + 1
                 total := 4
                 width := 25 * (((2 : Nat) : ℚ) + 1) } ∧
        (animationSteps[2]?).isSome = true ∧
        0 < progressWidth 2 ∧ progressWidth 2 ≤ 100 ∧
        ((2 : Nat) = 3 → progressWidth 2 = 100) ∧
        (∀ j, j < 2 → progressWidth j < progressWidth 2) ∧
        [0, 1, 2, 3].map progressWidth = [25, 50, 75, 100]) := by
  have h := progress_follows_phase
    { playing := true, currentStep := 2, energyLevel := 3 / 10 } rfl (by decide)
  refine ⟨?_, h⟩
  rw [h.1]
  simp [animationSteps]
  norm_num

theorem hostRun_cons (w : Host) (e : HostEvent) (es : List HostEvent) :
    hostRun w (e :: es) = (hostStep w e).bind (fun w1 => hostRun w1 es) := by
  simp only [hostRun]
  cases hostStep w e <;> rfl

/-- A property of the effect that holds before the first mount and is kept by
every event holds after every sequence of events. -/
theorem hostRun_invariant (P : Host → Prop)
    (hstep : ∀ w e w1, P w → hostStep w e = some w1 → P w1) :
    ∀ (evs : List HostEvent) (w w1 : Host), P w → hostRun w evs = some w1 → P w1 := by
  intro evs
  induction evs with
  | nil =>
    intro w w1 hP h
    simp [hostRun] at h
    exact h ▸ hP
  | cons e es ih =>
    intro w w1 hP h
    rw [hostRun_cons] at h
    cases hs : hostStep w e with
    | none => simp [hs] at h
    | some w2 =>
      simp [hs] at h
      exact ih w2 w1 (hstep w e w2 hP hs) h

theorem hostInv_step (w : Host) (e : HostEvent) (w1 : Host) (hP : HostInv w)
    (hs : hostStep w e = some w1) : HostInv w1 := by
  obtain ⟨hshape, hcount, hcalls⟩ := hP
  cases e with
  | mount =>
    simp only [hostStep] at hs
    cases ht : w.timer with
    | some k => simp [ht] at hs
    | none =>
      simp only [ht, Option.some.injEq] at hs
      subst hs
      have hnil : w.timeouts = [] := by
        rcases hshape with h | ⟨k, _, hk⟩
        · exact h
        · rw [ht] at hk; cases hk
      refine ⟨Or.inr ⟨w.nextTimeout, by simp [hnil], rfl⟩, ?_, hcalls⟩
      simp [hnil] at hcount ⊢
      omega
  | cleanup =>
    simp only [hostStep] at hs
    cases ht : w.timer with
    | none => simp [ht] at hs
    | some k =>
      simp only [ht, Option.some.injEq] at hs
      subst hs
      rcases hshape with h | ⟨k2, hk2, hk⟩
      · refine ⟨Or.inl (by simp [h]), ?_, hcalls⟩
        simp [h] at hcount ⊢
        omega
      · rw [ht] at hk
        cases hk
        refine ⟨Or.inl (by simp [hk2]), ?_, hcalls⟩
        simp [hk2] at hcount ⊢
        omega
  | fire k =>
    simp only [hostStep] at hs
    split at hs
    · rename_i hmem
      cases hs
      rcases hshape with h | ⟨k2, hk2, _⟩
      · rw [h] at hmem; cases hmem
      · have hk : k = k2 := by simpa [hk2] using hmem
        subst hk
        refine ⟨Or.inl (by simp [hk2]), ?_, ?_⟩
        · simp [hk2] at hcount ⊢
          omega
        · simp [playSequence, hcalls]
    · simp at hs

/-- After one mount the component is in the state `init` of the event model. -/
theorem host_mount_eq_init :
    (hostRun hostInit [HostEvent.mount]).map Host.comp = some init := rfl

/-- With no timer pending, no timer can go off. -/
theorem no_fire_of_nil (w : Host) (h : w.timeouts = []) (k : Nat) :
    hostStep w (HostEvent.fire k) = none := by
  simp [hostStep, h]

/-- C20 (auto-start fires at most once per mount and is cancelled by unmount):
after every sequence of mounts, cleanups and timers going off, every timer ever
scheduled has fired, was cancelled or is pending, at most one is pending, and
the calls of `playSequence` are those of the timers that fired.  A mount
schedules exactly one timer; after a cleanup no timer is pending and none can go
off; a timer that goes off calls `playSequence` once and cannot go off again.
Under mount, cleanup, mount (`React.StrictMode`) one timer is pending and one
call of `playSequence` results when it goes off. -/
theorem autoStart_once_per_mount (evs : List HostEvent) (w : Host)
    (h : hostRun hostInit evs = some w) :
    w.autoStarts + w.cancelled + w.timeouts.length = w.mounts ∧
      w.timeouts.length ≤ 1 ∧
      w.comp.invocations.length = w.autoStarts ∧
      (∀ w1, hostStep w HostEvent.mount = some w1 →
        w1.timeouts = [w.nextTimeout] ∧ w1.mounts = w.mounts + 1) ∧
      (∀ w1, hostStep w HostEvent.cleanup = some w1 →
        w1.timeouts = [] ∧ w1.autoStarts = w.autoStarts ∧
          ∀ k, hostStep w1 (HostEvent.fire k) = none) ∧
      (∀ k w1, hostStep w (HostEvent.fire k) = some w1 →
        w1.autoStarts = w.autoStarts + 1 ∧ ∀ j, hostStep w1 (HostEvent.fire j) = none) ∧
      (∃ w3 w4, hostRun hostInit strictModeMount = some w3 ∧ w3.autoStarts = 0 ∧
        w3.timeouts = [1] ∧ hostStep w3 (HostEvent.fire 1) = some w4 ∧
        w4.autoStarts = 1 ∧ w4.comp.invocations.length = 1 ∧ w4.timeouts = []) := by
  have hinv : HostInv w :=
    hostRun_invariant HostInv hostInv_step evs hostInit w
      ⟨Or.inl rfl, rfl, rfl⟩ h
  obtain ⟨hshape, hcount, hcalls⟩ := hinv
  have hnil_of : ∀ (e : HostEvent) (w1 : Host), hostStep w e = some w1 →
      e ≠ HostEvent.mount → w1.timeouts = [] := by
    intro e w1 hs hne
    cases e with
    | mount => exact absurd rfl hne
    | cleanup =>
      simp only [hostStep] at hs
      cases ht : w.timer with
      | none => simp [ht] at hs
      | some k =>
        simp only [ht, Option.some.injEq] at hs
        subst hs
        rcases hshape with h0 | ⟨k2, hk2, hk⟩
        · simp [h0]
        · rw [ht] at hk
          cases hk
          simp [hk2]
    | fire k =>
      simp only [hostStep] at hs
      split at hs
      · rename_i hmem
        cases hs
        rcases hshape with h0 | ⟨k2, hk2, _⟩
        · rw [h0] at hmem; cases hmem
        · have hk : k = k2 := by simpa [hk2] using hmem
          subst hk
          simp [hk2]
      · simp at hs
  refine ⟨hcount, ?_, hcalls, ?_, ?_, ?_, ?_⟩
  · rcases hshape with h0 | ⟨k, hk, _⟩
    · simp [h0]
    · simp [hk]
  · intro w1 hs
    simp only [hostStep] at hs
    cases ht : w.timer with
    | some k => simp [ht] at hs
    | none =>
      simp only [ht, Option.some.injEq] at hs
      subst hs
      have hnil : w.timeouts = [] := by
        rcases hshape with h0 | ⟨k, _, hk⟩
        · exact h0
        · rw [ht] at hk; cases hk
      simp [hnil]
  · intro w1 hs
    have hnil := hnil_of _ w1 hs (by simp)
    refine ⟨hnil, ?_, no_fire_of_nil w1 hnil⟩
    simp only [hostStep] at hs
    cases ht : w.timer with
    | none => simp [ht] at hs
    | some k =>
      simp only [ht, Option.some.injEq] at hs
      subst hs
      rfl
  · intro k w1 hs
    have hnil := hnil_of _ w1 hs (by simp)
    refine ⟨?_, no_fire_of_nil w1 hnil⟩
    simp only [hostStep] at hs
    split at hs
    · cases hs; rfl
    · simp at hs
  · exact ⟨_, _, rfl, rfl, rfl, rfl, rfl, rfl, rfl⟩

theorem autoStart_once_per_mount_witness :
    ∃ w, hostRun hostInit (strictModeMount ++ [HostEvent.fire 1]) = some w ∧
      w.mounts = 2 ∧ w.cancelled = 1 ∧ w.autoStarts = 1 ∧
      (w.autoStarts + w.cancelled + w.timeouts.length = w.mounts ∧
        w.timeouts.length ≤ 1 ∧
        w.comp.invocations.length = w.autoStarts ∧
        (∀ w1, hostStep w HostEvent.mount = some w1 →
          w1.timeouts = [w.nextTimeout] ∧ w1.mounts = w.mounts + 1) ∧
        (∀ w1, hostStep w HostEvent.cleanup = some w1 →
          w1.timeouts = [] ∧ w1.autoStarts = w.autoStarts ∧
            ∀ k, hostStep w1 (HostEvent.fire k) = none) ∧
        (∀ k w1, hostStep w (HostEvent.fire k) = some w1 →
          w1.autoStarts = w.autoStarts + 1 ∧ ∀ j, hostStep w1 (HostEvent.fire j) = none) ∧
        (∃ w3 w4, hostRun hostInit strictModeMount = some w3 ∧ w3.autoStarts = 0 ∧
          w3.timeouts = [1] ∧ hostStep w3 (HostEvent.fire 1) = some w4 ∧
          w4.autoStarts = 1 ∧ w4.comp.invocations.length = 1 ∧ w4.timeouts = [])) :=
  ⟨_, rfl, rfl, rfl, rfl,
    autoStart_once_per_mount (strictModeMount ++ [HostEvent.fire 1]) _ rfl⟩

/-! ## Single runs and tasks -/

/-- Resuming a run moves it to its next `await`, and after the fifth to its end,
and leaves the energy level alone. -/
theorem resume_solo (s0 : State) (k : Nat) (e : ℚ) (hk : k < 5) :
    resume (soloState s0 k e) s0.invocations.length = some (soloState s0 (k + 1) e) := by
  have hk5 : k = 0 ∨ k = 1 ∨ k = 2 ∨ k = 3 ∨ k = 4 := by omega
  rcases hk5 with rfl | rfl | rfl | rfl | rfl <;>
    simp [resume, soloState, awaitAfter, clearInterval, List.range_succ,
      List.eraseIdx_append_of_length_le]

/-- A call that has returned cannot be resumed. -/
theorem resume_returned (s0 : State) (k : Nat) (e : ℚ) (hk : 5 ≤ k) :
    resume (soloState s0 k e) s0.invocations.length = none := by
  have h : ¬ k < 5 := by omega
  simp [resume, soloState, h]

/-- One event of a run: a settled promise moves the run on, a tick only changes
the energy level, and after the fifth settled promise the call has returned. -/
theorem solo_step (s0 : State) (k : Nat) (e : ℚ) (ev : Event) (s1 : State)
    (hk : k ≤ 5) (hev : ev.ofRun s0.invocations.length = true)
    (h : step (soloState s0 k e) ev = some s1) :
    k + countDone [ev] ≤ 5 ∧ ∃ e1, s1 = soloState s0 (k + countDone [ev]) e1 := by
  cases ev with
  | click => simp [Event.ofRun] at hev
  | autoStart => simp [Event.ofRun] at hev
  | tick t =>
    simp only [step] at h
    split at h
    · cases h
      exact ⟨by simpa [countDone] using hk, energyTick e, by simp [countDone, soloState]⟩
    · simp at h
  | animationDone i =>
    simp [Event.ofRun] at hev
    subst hev
    rcases Nat.lt_or_ge k 5 with h5 | h5
    · simp only [step, resume_solo s0 k e h5, Option.some.injEq] at h
      exact ⟨by simp [countDone]; omega, e, by simp [countDone, ← h]⟩
    · simp [step, resume_returned s0 k e h5] at h

/-- Every continuation of a run by its own events is again a state of that run. -/
theorem solo_run (s0 : State) :
    ∀ (evs : List Event) (k : Nat) (e : ℚ) (s1 : State), k ≤ 5 →
      (∀ ev ∈ evs, ev.ofRun s0.invocations.length = true) →
      run (soloState s0 k e) evs = some s1 →
      k + countDone evs ≤ 5 ∧ ∃ e1, s1 = soloState s0 (k + countDone evs) e1 := by
  intro evs
  induction evs with
  | nil =>
    intro k e s1 hk _ h
    simp [run] at h
    exact ⟨by simpa [countDone] using hk, e, by simp [countDone, h]⟩
  | cons ev es ih =>
    intro k e s1 hk hev h
    rw [run_cons] at h
    cases hs : step (soloState s0 k e) ev with
    | none => simp [hs] at h
    | some s2 =>
      simp [hs] at h
      obtain ⟨hk2, e2, rfl⟩ := solo_step s0 k e ev s2 hk (hev ev (List.mem_cons_self _ _)) hs
      have := ih (k + countDone [ev]) e2 s1 hk2
        (fun x hx => hev x (List.mem_cons_of_mem _ hx)) h
      rw [countDone_cons, ← Nat.add_assoc]
      exact this

/-- The microtasks of a task that started a run with no other call in flight:
the five awaits settle in turn and the call returns. -/
theorem settle_solo (s0 : State) (e : ℚ) (h0 : s0.invocations = []) :
    settle 5 (soloState s0 0 e) = soloState s0 5 e ∧
      settleTrace 5 (soloState s0 0 e) =
        [soloState s0 0 e, soloState s0 1 e, soloState s0 2 e, soloState s0 3 e,
         soloState s0 4 e, soloState s0 5 e] := by
  have hlen : s0.invocations.length = 0 := by simp [h0]
  have r0 := resume_solo s0 0 e (by omega)
  have r1 := resume_solo s0 1 e (by omega)
  have r2 := resume_solo s0 2 e (by omega)
  have r3 := resume_solo s0 3 e (by omega)
  have r4 := resume_solo s0 4 e (by omega)
  rw [hlen] at r0 r1 r2 r3 r4
  simp only [Nat.zero_add, Nat.reduceAdd] at r0 r1 r2 r3 r4
  constructor
  · simp only [settle, r0, r1, r2, r3, r4]
  · simp only [settleTrace, r0, r1, r2, r3, r4]

/-- Between two tasks nothing is running: every task that starts a run also
ends it, and no interval outlives its task. -/
theorem idle_taskStep (s : State) (t : PageTask) (s1 : State) (hI : Idle s)
    (h : taskStep s t = some s1) : Idle s1 := by
  obtain ⟨hp, _, _, hint, hinv⟩ := hI
  have hfin : ∀ s0 : State, s0.intervals = [] → s0.invocations = [] →
      Idle (settle (5 * (playSequence s0).invocations.length) (playSequence s0)) := by
    intro s0 hi hv
    have h5 : 5 * (playSequence s0).invocations.length = 5 := by simp [playSequence, hv]
    rw [h5, playSequence_eq_solo, (settle_solo s0 0 hv).1]
    simp [Idle, soloState, hi, hv]
  cases t with
  | click =>
    simp only [taskStep, PageTask.event, step, Option.map_some', Option.some.injEq] at h
    subst h
    have htp : togglePlay s = playSequence s := by simp [togglePlay, hp]
    rw [htp]
    exact hfin s hint hinv
  | autoStart =>
    simp only [taskStep, PageTask.event, step] at h
    split at h
    · simp only [Option.map_some', Option.some.injEq] at h
      subst h
      exact hfin _ hint hinv
    · simp at h
  | tick k =>
    simp [taskStep, PageTask.event, step, hint] at h

theorem runTasks_cons (s : State) (t : PageTask) (ts : List PageTask) :
    runTasks s (t :: ts) = (taskStep s t).bind (fun s1 => runTasks s1 ts) := by
  simp only [runTasks]
  cases taskStep s t <;> rfl

/-- After every sequence of tasks from the mount, nothing is running. -/
theorem idle_runTasks (ts : List PageTask) :
    ∀ s s1 : State, Idle s → runTasks s ts = some s1 → Idle s1 := by
  induction ts with
  | nil =>
    intro s s1 hI h
    simp [runTasks] at h
    exact h ▸ hI
  | cons t ts ih =>
    intro s s1 hI h
    rw [runTasks_cons] at h
    cases hs : taskStep s t with
    | none => simp [hs] at h
    | some s2 =>
      simp [hs] at h
      exact ih s2 s1 (idle_taskStep s t s2 hI hs) h

theorem idle_init : Idle init := ⟨rfl, rfl, rfl, rfl, rfl⟩

/-- The states a task goes through, when nothing was running before it: none
(the task cannot happen), or those of one run from its start to its end. -/
theorem microStates_idle (s : State) (t : PageTask) (hI : Idle s) :
    microStates s t = [] ∨
      ∃ s0 : State, s0.intervals = [] ∧ s0.invocations = [] ∧
        s0.nextHandle = s.nextHandle ∧ s0.cleared = s.cleared ∧
        taskStep s t = some (soloState s0 5 0) ∧
        microStates s t =
          [soloState s0 0 0, soloState s0 1 0, soloState s0 2 0, soloState s0 3 0,
           soloState s0 4 0, soloState s0 5 0] := by
  obtain ⟨hp, _, _, hint, hinv⟩ := hI
  have hfin : ∀ s0 : State, s0.invocations = [] →
      settle (5 * (playSequence s0).invocations.length) (playSequence s0) = soloState s0 5 0 ∧
      settleTrace (5 * (playSequence s0).invocations.length) (playSequence s0) =
        [soloState s0 0 0, soloState s0 1 0, soloState s0 2 0, soloState s0 3 0,
         soloState s0 4 0, soloState s0 5 0] := by
    intro s0 hv
    have h5 : 5 * (playSequence s0).invocations.length = 5 := by simp [playSequence, hv]
    rw [h5, playSequence_eq_solo]
    exact settle_solo s0 0 hv
  cases t with
  | click =>
    have htp : togglePlay s = playSequence s := by simp [togglePlay, hp]
    refine Or.inr ⟨s, hint, hinv, rfl, rfl, ?_, ?_⟩
    · simp only [taskStep, PageTask.event, step, Option.map_some', htp, (hfin s hinv).1]
    · simp only [microStates, PageTask.event, step, htp, (hfin s hinv).2]
  | autoStart =>
    by_cases ha : s.autoTimer = true
    · refine Or.inr ⟨{ s with autoTimer := false }, hint, hinv, rfl, rfl, ?_, ?_⟩
      · simp only [taskStep, PageTask.event, step, ha, if_true, Option.map_some',
          (hfin { s with autoTimer := false } hinv).1]
      · simp only [microStates, PageTask.event, step, ha, if_true,
          (hfin { s with autoTimer := false } hinv).2]
    · left
      simp [microStates, PageTask.event, step, ha]
  | tick k =>
    left
    simp [microStates, PageTask.event, step, hint]

/-- A click when nothing is running starts a run, and the task takes the run
from its start to its end. -/
theorem click_idle (s : State) (hI : Idle s) :
    taskStep s PageTask.click = some (soloState s 5 0) ∧
      microStates s PageTask.click =
        [soloState s 0 0, soloState s 1 0, soloState s 2 0, soloState s 3 0,
         soloState s 4 0, soloState s 5 0] := by
  obtain ⟨hp, _, _, _, hinv⟩ := hI
  have htp : togglePlay s = playSequence s := by simp [togglePlay, hp]
  have h5 : 5 * (playSequence s).invocations.length = 5 := by simp [playSequence, hinv]
  constructor
  · simp only [taskStep, PageTask.event, step, Option.map_some', htp, h5]
    rw [playSequence_eq_solo, (settle_solo s 0 hinv).1]
  · simp only [microStates, PageTask.event, step, htp, h5]
    rw [playSequence_eq_solo, (settle_solo s 0 hinv).2]

theorem run_append (evs1 evs2 : List Event) :
    ∀ s : State, run s (evs1 ++ evs2) = (run s evs1).bind (fun s1 => run s1 evs2) := by
  induction evs1 with
  | nil => intro s; rfl
  | cons e es ih =>
    intro s
    rw [List.cons_append, run_cons, run_cons]
    cases step s e with
    | none => rfl
    | some s1 => simp [ih s1]

/-- The microtasks of a task are events of the component: promises of the
first call in flight that settle. -/
theorem settle_run (fuel : Nat) :
    ∀ s : State, ∃ evs, run s evs = some (settle fuel s) := by
  induction fuel with
  | zero => intro s; exact ⟨[], rfl⟩
  | succ f ih =>
    intro s
    cases hr : resume s 0 with
    | none => exact ⟨[], by simp [settle, hr, run]⟩
    | some s1 =>
      obtain ⟨evs, hevs⟩ := ih s1
      refine ⟨Event.animationDone 0 :: evs, ?_⟩
      rw [run_cons]
      simp [step, hr, settle, hevs]

/-- Every state the page reaches by tasks is reached by events of the
component, so what holds after every sequence of events holds of the page. -/
theorem runTasks_run (ts : List PageTask) :
    ∀ s s1 : State, runTasks s ts = some s1 → ∃ evs, run s evs = some s1 := by
  induction ts with
  | nil =>
    intro s s1 h
    simp [runTasks] at h
    exact ⟨[], by simp [run, h]⟩
  | cons t ts ih =>
    intro s s1 h
    rw [runTasks_cons] at h
    cases hs : taskStep s t with
    | none => simp [hs] at h
    | some s2 =>
      simp [hs] at h
      obtain ⟨evs2, h2⟩ := ih s2 s1 h
      simp only [taskStep] at hs
      cases hst : step s t.event with
      | none => simp [hst] at hs
      | some s3 =>
        simp only [hst, Option.map_some', Option.some.injEq] at hs
        obtain ⟨evs1, h1⟩ := settle_run (5 * s3.invocations.length) s3
        refine ⟨t.event :: (evs1 ++ evs2), ?_⟩
        rw [run_cons, hst]
        simp only [Option.some_bind]
        rw [run_append, h1, hs]
        simpa using h2

/-- No interval firing is among the tasks of the page: between two tasks no
interval is active. -/
theorem no_ticks_runTasks (ts : List PageTask) :
    ∀ s s1 : State, Idle s → runTasks s ts = some s1 → countTicks ts = 0 := by
  induction ts with
  | nil => intro _ _ _ _; rfl
  | cons t ts ih =>
    intro s s1 hI h
    rw [runTasks_cons] at h
    cases hs : taskStep s t with
    | none => simp [hs] at h
    | some s2 =>
      simp [hs] at h
      have hrest := ih s2 s1 (idle_taskStep s t s2 hI hs) h
      cases t with
      | click => simpa [countTicks] using hrest
      | autoStart => simpa [countTicks] using hrest
      | tick k =>
        obtain ⟨_, _, _, hint, _⟩ := hI
        simp [taskStep, PageTask.event, step, hint] at hs

/-! ## The claims about runs, settled on the tasks of the page -/

/-- C1 (at most one phase timeline is active at any time): after every sequence
of tasks from the mount (clicks and the auto-start in any order) no call of
`playSequence` is in flight, and in every state the component goes through
during a further task at most one call is in flight: each call runs to its end
in the task that made it.  A click can always start a run, and that run is over
when the task ends. -/
theorem one_timeline_at_most (ts : List PageTask) (s : State)
    (h : runTasks init ts = some s) :
    s.invocations = [] ∧
      (∀ t, ∀ m ∈ microStates s t, m.invocations.length ≤ 1) ∧
      (∃ s1, taskStep s PageTask.click = some s1 ∧ s1.invocations = [] ∧
        (microStates s PageTask.click).map (fun m => m.invocations.length)
          = [1, 1, 1, 1, 1, 0]) := by
  have hI := idle_runTasks ts init s idle_init h
  refine ⟨hI.2.2.2.2, fun t m hm => ?_, ?_⟩
  · rcases microStates_idle s t hI with h0 | ⟨s0, _, hv, _, _, _, hms⟩
    · rw [h0] at hm; cases hm
    · rw [hms] at hm
      simp only [List.mem_cons, List.mem_singleton, List.not_mem_nil, or_false] at hm
      rcases hm with rfl | rfl | rfl | rfl | rfl | rfl <;> simp [soloState, hv]
  · have hv := hI.2.2.2.2
    obtain ⟨hts, hms⟩ := click_idle s hI
    exact ⟨_, hts, by simp [soloState, hv], by simp [hms, soloState, hv]⟩

theorem one_timeline_at_most_witness :
    ∃ s, runTasks init clickTimerClick = some s ∧
      (s.invocations = [] ∧
        (∀ t, ∀ m ∈ microStates s t, m.invocations.length ≤ 1) ∧
        (∃ s1, taskStep s PageTask.click = some s1 ∧ s1.invocations = [] ∧
          (microStates s PageTask.click).map (fun m => m.invocations.length)
            = [1, 1, 1, 1, 1, 0])) :=
  ⟨_, rfl, one_timeline_at_most clickTimerClick _ rfl⟩

/-- C2 (stopping during Energy Conversion halts the accumulator): the interval
of line 47 is cleared by line 58 in the task that created it, so when a click is
handled no interval is active, `currentStep` is 0 and `playing` is false, and the
click takes the start branch of `togglePlay`: the state the claim starts from,
`currentStep = 2` with the interval active, occurs only inside a task, where
`playing` is true and no click can come.  After every click no interval is
active, and in every later state `energyLevel` is 0 and no interval firing has
happened. -/
theorem no_interval_when_clicked (ts : List PageTask) (s : State)
    (h : runTasks init ts = some s) :
    s.intervals = [] ∧ s.currentStep = 0 ∧ s.energyLevel = 0 ∧
      togglePlay s = playSequence s ∧
      (∀ k, taskStep s (PageTask.tick k) = none) ∧
      (∀ t, ∀ m ∈ microStates s t, m.currentStep = 2 →
        m.playing = true ∧ m.intervals = [s.nextHandle]) ∧
      (∃ s1, taskStep s PageTask.click = some s1 ∧ s1.intervals = [] ∧
        s1.cleared = s.cleared ++ [s.nextHandle] ∧
        ∀ ts2 s2, runTasks s1 ts2 = some s2 →
          s2.intervals = [] ∧ s2.energyLevel = 0 ∧ countTicks ts2 = 0) := by
  have hI := idle_runTasks ts init s idle_init h
  have hstep := hI.2.1
  have hen := hI.2.2.1
  have hint := hI.2.2.2.1
  refine ⟨hint, hstep, hen, by simp [togglePlay, hI.1], fun k => ?_,
    fun t m hm h2 => ?_, ?_⟩
  · simp [taskStep, PageTask.event, step, hint]
  · rcases microStates_idle s t hI with h0 | ⟨s0, hi, hv, hn, _, _, hms⟩
    · rw [h0] at hm; cases hm
    · rw [hms] at hm
      simp only [List.mem_cons, List.mem_singleton, List.not_mem_nil, or_false] at hm
      rcases hm with rfl | rfl | rfl | rfl | rfl | rfl <;>
        simp [soloState, hi, hn] at h2 ⊢
  · obtain ⟨hts, _⟩ := click_idle s hI
    have hI1 : Idle (soloState s 5 0) := idle_taskStep s PageTask.click _ hI hts
    refine ⟨_, hts, hI1.2.2.2.1, by simp [soloState], fun ts2 s2 h2 => ?_⟩
    have hI2 := idle_runTasks ts2 _ s2 hI1 h2
    exact ⟨hI2.2.2.2.1, hI2.2.2.1, no_ticks_runTasks ts2 _ s2 hI1 h2⟩

theorem no_interval_when_clicked_witness :
    ∃ s, runTasks init [PageTask.autoStart] = some s ∧ s.cleared = [0] ∧
      (s.intervals = [] ∧ s.currentStep = 0 ∧ s.energyLevel = 0 ∧
        togglePlay s = playSequence s ∧
        (∀ k, taskStep s (PageTask.tick k) = none) ∧
        (∀ t, ∀ m ∈ microStates s t, m.currentStep = 2 →
          m.playing = true ∧ m.intervals = [s.nextHandle]) ∧
        (∃ s1, taskStep s PageTask.click = some s1 ∧ s1.intervals = [] ∧
          s1.cleared = s.cleared ++ [s.nextHandle] ∧
          ∀ ts2 s2, runTasks s1 ts2 = some s2 →
            s2.intervals = [] ∧ s2.energyLevel = 0 ∧ countTicks ts2 = 0)) :=
  ⟨_, rfl, rfl, no_interval_when_clicked [PageTask.autoStart] _ rfl⟩

/-- C10 (currentStep is 0 whenever the sequence is not running): after every
sequence of tasks from the mount `playing` is false and `currentStep` is 0, and
in every state the component goes through during a further task, `currentStep`
is 0 whenever `playing` is false: `playing` is true from line 25 until lines
74-75 set `playing` to false and `currentStep` to 0 together. -/
theorem not_playing_means_step_zero (ts : List PageTask) (s : State)
    (h : runTasks init ts = some s) :
    s.playing = false ∧ s.currentStep = 0 ∧
      (∀ t, ∀ m ∈ microStates s t, m.playing = false → m.currentStep = 0) ∧
      (microStates s PageTask.click).map (fun m => (m.playing, m.currentStep)) =
        [(true, 0), (true, 1), (true, 2), (true, 3), (true, 3), (false, 0)] := by
  have hI := idle_runTasks ts init s idle_init h
  refine ⟨hI.1, hI.2.1, fun t m hm hp => ?_, ?_⟩
  · rcases microStates_idle s t hI with h0 | ⟨s0, _, _, _, _, _, hms⟩
    · rw [h0] at hm; cases hm
    · rw [hms] at hm
      simp only [List.mem_cons, List.mem_singleton, List.not_mem_nil, or_false] at hm
      rcases hm with rfl | rfl | rfl | rfl | rfl | rfl <;> simp [soloState] at hp ⊢
  · rw [(click_idle s hI).2]
    simp [soloState]

theorem not_playing_means_step_zero_witness :
    ∃ s, runTasks init clickTimerClick = some s ∧
      (s.playing = false ∧ s.currentStep = 0 ∧
        (∀ t, ∀ m ∈ microStates s t, m.playing = false → m.currentStep = 0) ∧
        (microStates s PageTask.click).map (fun m => (m.playing, m.currentStep)) =
          [(true, 0), (true, 1), (true, 2), (true, 3), (true, 3), (false, 0)]) :=
  ⟨_, rfl, not_playing_means_step_zero clickTimerClick _ rfl⟩

/-- C21 (the clamp is never reached in a single run): no interval firing is ever
among the tasks of the page, since the interval is cleared in the task that
created it; so at most 30 ticks (in fact none) occur in a run, `energyLevel` is
0 after every task and in every state a run goes through, which is at most 4.5
and below 9.1, and a tick from such a value would give `prev + 0.15`, the first
argument of `min`. -/
theorem clamp_never_reached (ts : List PageTask) (s : State)
    (h : runTasks init ts = some s) :
    countTicks ts ≤ 30 ∧ countTicks ts = 0 ∧
      s.energyLevel ≤ 45 / 10 ∧ s.energyLevel < 91 / 10 ∧ s.energyLevel = 0 ∧
      (∀ k, taskStep s (PageTask.tick k) = none) ∧
      (∀ t, ∀ m ∈ microStates s t,
        m.energyLevel = 0 ∧ m.energyLevel ≤ 45 / 10 ∧
          energyTick m.energyLevel = m.energyLevel + 15 / 100) := by
  have hI := idle_runTasks ts init s idle_init h
  have hn := no_ticks_runTasks ts init s idle_init h
  have hen := hI.2.2.1
  have hint := hI.2.2.2.1
  refine ⟨by omega, hn, by rw [hen]; norm_num, by rw [hen]; norm_num, hen, fun k => ?_,
    fun t m hm => ?_⟩
  · simp [taskStep, PageTask.event, step, hint]
  · have h0 : m.energyLevel = 0 := by
      rcases microStates_idle s t hI with h0 | ⟨s0, _, _, _, _, _, hms⟩
      · rw [h0] at hm; cases hm
      · rw [hms] at hm
        simp only [List.mem_cons, List.mem_singleton, List.not_mem_nil, or_false] at hm
        rcases hm with rfl | rfl | rfl | rfl | rfl | rfl <;> simp [soloState]
    rw [h0]
    exact ⟨rfl, by norm_num, by norm_num [energyTick]⟩

theorem clamp_never_reached_witness :
    ∃ s, runTasks init clickTimerClick = some s ∧
      (countTicks clickTimerClick ≤ 30 ∧ countTicks clickTimerClick = 0 ∧
        s.energyLevel ≤ 45 / 10 ∧ s.energyLevel < 91 / 10 ∧ s.energyLevel = 0 ∧
        (∀ k, taskStep s (PageTask.tick k) = none) ∧
        (∀ t, ∀ m ∈ microStates s t,
          m.energyLevel = 0 ∧ m.energyLevel ≤ 45 / 10 ∧
            energyTick m.energyLevel = m.energyLevel + 15 / 100)) :=
  ⟨_, rfl, clamp_never_reached clickTimerClick _ rfl⟩


/-- C6 (phase ordering within one run): for a call of `playSequence` made in any
state and continued only by its own events (its awaited promises settle, ticks;
no click, no auto-start), at most five promises settle; while the call is in
flight `currentStep` is the number of settled promises capped at 3, `playing` is
true and the call has written exactly 0, 1, .., `currentStep` in that order; the
next promise can always settle; `currentStep` changes only when a promise of the
call settles, and then it goes up by exactly 1, except for the reset to 0 of line
75 when the fifth settles, after which the call has returned. -/
theorem phase_order_single_run (s0 : State) (evs : List Event) (s1 : State)
    (hev : ∀ ev ∈ evs, ev.ofRun s0.invocations.length = true)
    (h : run (playSequence s0) evs = some s1) :
    countDone evs ≤ 5 ∧
      (countDone evs < 5 →
        s1.currentStep = min (countDone evs) 3 ∧ s1.playing = true ∧
        ∃ inv, s1.invocations[s0.invocations.length]? = some inv ∧
          inv.pc = awaitAfter (countDone evs) ∧
          inv.writes = List.range (min (countDone evs) 3 + 1)) ∧
      (countDone evs = 5 →
        s1.currentStep = 0 ∧ s1.playing = false ∧ s1.invocations = s0.invocations) ∧
      (countDone evs < 5 →
        ∃ s2, step s1 (Event.animationDone s0.invocations.length) = some s2 ∧
          s2.currentStep = if countDone evs + 1 = 5 then 0 else min (countDone evs + 1) 3) ∧
      (∀ ev s2, ev.ofRun s0.invocations.length = true → step s1 ev = some s2 →
        s2.currentStep ≠ s1.currentStep →
        ev = Event.animationDone s0.invocations.length ∧
          (s2.currentStep = s1.currentStep + 1 ∨
            (countDone evs = 4 ∧ s2.currentStep = 0))) := by
  rw [playSequence_eq_solo] at h
  obtain ⟨hk, e1, rfl⟩ := solo_run s0 evs 0 0 s1 (by omega) hev h
  simp only [Nat.zero_add] at hk ⊢
  generalize countDone evs = k at hk ⊢
  have hk6 : k = 0 ∨ k = 1 ∨ k = 2 ∨ k = 3 ∨ k = 4 ∨ k = 5 := by omega
  refine ⟨hk, fun h5 => ?_, fun h5 => ?_, fun h5 => ?_, fun ev s2 hof hs hne => ?_⟩
  · rcases hk6 with rfl | rfl | rfl | rfl | rfl | rfl <;>
      simp [soloState, awaitAfter] at h5 ⊢
  · subst h5
    simp [soloState]
  · refine ⟨soloState s0 (k + 1) e1, ?_, ?_⟩
    · simp only [step]
      exact resume_solo s0 k e1 h5
    · rcases hk6 with rfl | rfl | rfl | rfl | rfl | rfl <;> simp [soloState] at h5 ⊢
  · obtain ⟨_, e2, rfl⟩ := solo_step s0 k e1 ev s2 hk hof hs
    cases ev with
    | click => simp [Event.ofRun] at hof
    | autoStart => simp [Event.ofRun] at hof
    | tick t => simp [countDone, soloState] at hne
    | animationDone i =>
      simp [Event.ofRun] at hof
      subst hof
      refine ⟨rfl, ?_⟩
      rcases hk6 with rfl | rfl | rfl | rfl | rfl | rfl <;>
        simp [countDone, soloState] at hne ⊢

theorem phase_order_single_run_witness :
    (∀ ev ∈ tickedFullRun, ev.ofRun init.invocations.length = true) ∧
    ∃ s1, run (playSequence init) tickedFullRun = some s1 ∧
      (countDone tickedFullRun ≤ 5 ∧
        (countDone tickedFullRun < 5 →
          s1.currentStep = min (countDone tickedFullRun) 3 ∧ s1.playing = true ∧
          ∃ inv, s1.invocations[init.invocations.length]? = some inv ∧
            inv.pc = awaitAfter (countDone tickedFullRun) ∧
            inv.writes = List.range (min (countDone tickedFullRun) 3 + 1)) ∧
        (countDone tickedFullRun = 5 →
          s1.currentStep = 0 ∧ s1.playing = false ∧ s1.invocations = init.invocations) ∧
        (countDone tickedFullRun < 5 →
          ∃ s2, step s1 (Event.animationDone init.invocations.length) = some s2 ∧
            s2.currentStep =
              if countDone tickedFullRun + 1 = 5 then 0
              else min (countDone tickedFullRun + 1) 3) ∧
        (∀ ev s2, ev.ofRun init.invocations.length = true → step s1 ev = some s2 →
          s2.currentStep ≠ s1.currentStep →
          ev = Event.animationDone init.invocations.length ∧
            (s2.currentStep = s1.currentStep + 1 ∨
              (countDone tickedFullRun = 4 ∧ s2.currentStep = 0)))) :=
  ⟨by decide, _, rfl, phase_order_single_run init tickedFullRun _ (by decide) rfl⟩


/-- The run of a call of `playSequence` whose five awaited promises settle one
after the other, from any state: the call returns. -/
theorem run_five_settled (sa : State) (e : ℚ) :
    run (soloState sa 0 e) (List.replicate 5 (Event.animationDone sa.invocations.length)) =
      some (soloState sa 5 e) := by
  have r0 := resume_solo sa 0 e (by omega)
  have r1 := resume_solo sa 1 e (by omega)
  have r2 := resume_solo sa 2 e (by omega)
  have r3 := resume_solo sa 3 e (by omega)
  have r4 := resume_solo sa 4 e (by omega)
  simp only [Nat.zero_add, Nat.reduceAdd] at r0 r1 r2 r3 r4
  simp only [List.replicate, run, step, r0, r1, r2, r3, r4]

/-- C7 (reset after a full run): a click on the page in any state it can be in
between two tasks starts a run that goes through the four phases and the idle
await and ends, in the same task, with `playing = false`, `currentStep = 0` and
no call in flight; the same holds of every task that can happen (the auto-start
included).  In the step relation: a call suspended at the idle await can always
be resumed, and lines 74-75 then give `playing = false` and `currentStep = 0`;
and the run of a call made in any state whose five awaited promises settle ends
in such a state. -/
theorem full_run_resets (ts : List PageTask) (s0 : State)
    (hr : runTasks init ts = some s0) :
    (∃ s1, taskStep s0 PageTask.click = some s1 ∧
        s1.playing = false ∧ s1.currentStep = 0 ∧ s1.invocations = []) ∧
      (microStates s0 PageTask.click).map
          (fun m => (m.playing, m.currentStep, m.invocations.map Invocation.pc)) =
        [(true, 0, [Await.approach]), (true, 1, [Await.fieldActivation]),
         (true, 2, [Await.energyConversion]), (true, 3, [Await.ringJettison]),
         (true, 3, [Await.idleMonitoring]), (false, 0, [])] ∧
      (∀ t s1, taskStep s0 t = some s1 →
        s1.playing = false ∧ s1.currentStep = 0 ∧ s1.invocations = []) ∧
      (∀ (s : State) (i : Nat) (inv : Invocation), s.invocations[i]? = some inv →
        inv.pc = Await.idleMonitoring →
        ∃ s1, step s (Event.animationDone i) = some s1 ∧
          s1.playing = false ∧ s1.currentStep = 0 ∧ s1.energyLevel = s.energyLevel) ∧
      (∀ sa : State, ∃ s1,
        run (playSequence sa)
          (List.replicate 5 (Event.animationDone sa.invocations.length)) = some s1 ∧
        s1.playing = false ∧ s1.currentStep = 0 ∧ s1.invocations = sa.invocations) := by
  have hI := idle_runTasks ts init s0 idle_init hr
  have hv := hI.2.2.2.2
  obtain ⟨hts, hms⟩ := click_idle s0 hI
  refine ⟨⟨_, hts, by simp [soloState], by simp [soloState], by simp [soloState, hv]⟩, ?_,
    fun t s1 h1 => ?_, fun s i inv hg hp => ?_, fun sa => ?_⟩
  · rw [hms]
    simp [soloState, hv, awaitAfter]
  · have hI1 := idle_taskStep s0 t s1 hI h1
    exact ⟨hI1.1, hI1.2.1, hI1.2.2.2.2⟩
  · exact ⟨{ s with playing := false, currentStep := 0,
                     invocations := s.invocations.eraseIdx i },
      by simp only [step, resume, hg, hp], rfl, rfl, rfl⟩
  · rw [playSequence_eq_solo]
    exact ⟨_, run_five_settled sa 0, by simp [soloState], by simp [soloState],
      by simp [soloState]⟩

theorem full_run_resets_witness :
    ∃ s0, runTasks init [PageTask.click] = some s0 ∧
      ((∃ s1, taskStep s0 PageTask.click = some s1 ∧
          s1.playing = false ∧ s1.currentStep = 0 ∧ s1.invocations = []) ∧
        (microStates s0 PageTask.click).map
            (fun m => (m.playing, m.currentStep, m.invocations.map Invocation.pc)) =
          [(true, 0, [Await.approach]), (true, 1, [Await.fieldActivation]),
           (true, 2, [Await.energyConversion]), (true, 3, [Await.ringJettison]),
           (true, 3, [Await.idleMonitoring]), (false, 0, [])] ∧
        (∀ t s1, taskStep s0 t = some s1 →
          s1.playing = false ∧ s1.currentStep = 0 ∧ s1.invocations = []) ∧
        (∀ (s : State) (i : Nat) (inv : Invocation), s.invocations[i]? = some inv →
          inv.pc = Await.idleMonitoring →
          ∃ s1, step s (Event.animationDone i) = some s1 ∧
            s1.playing = false ∧ s1.currentStep = 0 ∧ s1.energyLevel = s.energyLevel) ∧
        (∀ sa : State, ∃ s1,
          run (playSequence sa)
            (List.replicate 5 (Event.animationDone sa.invocations.length)) = some s1 ∧
          s1.playing = false ∧ s1.currentStep = 0 ∧ s1.invocations = sa.invocations)) :=
  ⟨_, rfl, full_run_resets [PageTask.click] _ rfl⟩

/-- C8 (the accumulator timer is scoped to the Energy Conversion phase on natural
completion): for a call of `playSequence` made in any reachable state and
continued only by its own events, the interval of line 47 is active exactly when
two promises have settled, which is exactly when `currentStep = 2`; line 58
clears it, once, when the third settles and `currentStep` becomes 3, and the
record of cleared handles never changes again; an interval that was not active
before the run can tick exactly while `currentStep = 2`; and the run always goes
on: the next promise can settle and gives the interval table, the record of
cleared handles and the `currentStep` of the next point of the run. -/
theorem interval_scoped_to_conversion (evs0 : List Event) (s0 : State)
    (evs : List Event) (s1 : State)
    (hr : run init evs0 = some s0)
    (hev : ∀ ev ∈ evs, ev.ofRun s0.invocations.length = true)
    (h : run (playSequence s0) evs = some s1) :
    countDone evs ≤ 5 ∧
      s1.intervals = s0.intervals ++ (if countDone evs = 2 then [s0.nextHandle] else []) ∧
      s1.cleared = s0.cleared ++ (if 3 ≤ countDone evs then [s0.nextHandle] else []) ∧
      (s1.currentStep = 2 ↔ countDone evs = 2) ∧
      (∀ h1, h1 ∉ s0.intervals →
        ((∃ s2, step s1 (Event.tick h1) = some s2) ↔
          (h1 = s0.nextHandle ∧ s1.currentStep = 2))) ∧
      (countDone evs < 5 →
        ∃ s2, step s1 (Event.animationDone s0.invocations.length) = some s2 ∧
          s2.intervals =
            s0.intervals ++ (if countDone evs + 1 = 2 then [s0.nextHandle] else []) ∧
          s2.cleared =
            s0.cleared ++ (if 3 ≤ countDone evs + 1 then [s0.nextHandle] else []) ∧
          s2.currentStep = (if countDone evs + 1 = 5 then 0 else min (countDone evs + 1) 3) ∧
          s2.energyLevel = s1.energyLevel) := by
  have hfresh := nextHandle_fresh evs0 s0 hr
  have hff := filter_fresh s0.intervals s0.nextHandle hfresh
  rw [playSequence_eq_solo] at h
  obtain ⟨hk, e1, rfl⟩ := solo_run s0 evs 0 0 s1 (by omega) hev h
  simp only [Nat.zero_add] at hk ⊢
  generalize countDone evs = k at hk ⊢
  have hk6 : k = 0 ∨ k = 1 ∨ k = 2 ∨ k = 3 ∨ k = 4 ∨ k = 5 := by omega
  refine ⟨hk, ?_, ?_, ?_, fun h1 hn => ?_, fun h5 => ?_⟩
  · rcases hk6 with rfl | rfl | rfl | rfl | rfl | rfl <;> simp [soloState, hff]
  · rcases hk6 with rfl | rfl | rfl | rfl | rfl | rfl <;> simp [soloState]
  · rcases hk6 with rfl | rfl | rfl | rfl | rfl | rfl <;> simp [soloState]
  · rcases hk6 with rfl | rfl | rfl | rfl | rfl | rfl <;>
      simp [step, soloState, hff, hn]
  · refine ⟨soloState s0 (k + 1) e1, ?_, ?_⟩
    · simp only [step]
      exact resume_solo s0 k e1 h5
    · rcases hk6 with rfl | rfl | rfl | rfl | rfl | rfl <;>
        simp [soloState, hff] at h5 ⊢

theorem interval_scoped_to_conversion_witness :
    (∀ ev ∈ tickedFullRun, ev.ofRun init.invocations.length = true) ∧
    ∃ s1, run (playSequence init) tickedFullRun = some s1 ∧
      s1.energyLevel = 3 / 10 ∧ s1.cleared = [0] ∧
      (countDone tickedFullRun ≤ 5 ∧
        s1.intervals =
          init.intervals ++ (if countDone tickedFullRun = 2 then [init.nextHandle] else []) ∧
        s1.cleared =
          init.cleared ++ (if 3 ≤ countDone tickedFullRun then [init.nextHandle] else []) ∧
        (s1.currentStep = 2 ↔ countDone tickedFullRun = 2) ∧
        (∀ h1, h1 ∉ init.intervals →
          ((∃ s2, step s1 (Event.tick h1) = some s2) ↔
            (h1 = init.nextHandle ∧ s1.currentStep = 2))) ∧
        (countDone tickedFullRun < 5 →
          ∃ s2, step s1 (Event.animationDone init.invocations.length) = some s2 ∧
            s2.intervals =
              init.intervals ++
                (if countDone tickedFullRun + 1 = 2 then [init.nextHandle] else []) ∧
            s2.cleared =
              init.cleared ++
                (if 3 ≤ countDone tickedFullRun + 1 then [init.nextHandle] else []) ∧
            s2.currentStep =
              (if countDone tickedFullRun + 1 = 5 then 0
               else min (countDone tickedFullRun + 1) 3) ∧
            s2.energyLevel = s1.energyLevel)) :=
  ⟨by decide, _, rfl, by norm_num [clearInterval, playSequence, init, energyTick], rfl,
    interval_scoped_to_conversion [] init tickedFullRun _ rfl (by decide) rfl⟩


/-- One event of a run that has left the conversion phase, when no other
interval is active: no tick can happen and the energy level stays. -/
theorem solo_step_late (s0 : State) (k : Nat) (e : ℚ) (ev : Event) (s1 : State)
    (hi : s0.intervals = []) (hk3 : 3 ≤ k) (hk : k ≤ 5)
    (hev : ev.ofRun s0.invocations.length = true)
    (h : step (soloState s0 k e) ev = some s1) :
    k + countDone [ev] ≤ 5 ∧ s1 = soloState s0 (k + countDone [ev]) e := by
  have hk2 : k = 3 ∨ k = 4 ∨ k = 5 := by omega
  cases ev with
  | click => simp [Event.ofRun] at hev
  | autoStart => simp [Event.ofRun] at hev
  | tick t =>
    rcases hk2 with rfl | rfl | rfl <;> simp [step, soloState, hi] at h
  | animationDone i =>
    simp [Event.ofRun] at hev
    subst hev
    rcases Nat.lt_or_ge k 5 with h5 | h5
    · simp only [step, resume_solo s0 k e h5, Option.some.injEq] at h
      exact ⟨by simp [countDone]; omega, by simp [countDone, ← h]⟩
    · simp [step, resume_returned s0 k e h5] at h

/-- After the conversion phase the energy level stays through every further
event of the run, when no other interval is active. -/
theorem solo_run_late (s0 : State) (hi : s0.intervals = []) :
    ∀ (evs : List Event) (k : Nat) (e : ℚ) (s1 : State), 3 ≤ k → k ≤ 5 →
      (∀ ev ∈ evs, ev.ofRun s0.invocations.length = true) →
      run (soloState s0 k e) evs = some s1 →
      k + countDone evs ≤ 5 ∧ s1 = soloState s0 (k + countDone evs) e := by
  intro evs
  induction evs with
  | nil =>
    intro k e s1 _ hk _ h
    simp [run] at h
    exact ⟨by simpa [countDone] using hk, by simp [countDone, h]⟩
  | cons ev es ih =>
    intro k e s1 hk3 hk hev h
    rw [run_cons] at h
    cases hs : step (soloState s0 k e) ev with
    | none => simp [hs] at h
    | some s2 =>
      simp [hs] at h
      obtain ⟨hk2, rfl⟩ :=
        solo_step_late s0 k e ev s2 hi hk3 hk (hev ev (List.mem_cons_self _ _)) hs
      have := ih (k + countDone [ev]) e s1 (by omega) hk2
        (fun x hx => hev x (List.mem_cons_of_mem _ hx)) h
      rw [countDone_cons, ← Nat.add_assoc]
      exact this

/-- A handler that runs when nothing is running starts a run, with no interval
active and no other call in flight. -/
theorem idle_start (s0 : State) (t : PageTask) (sA : State) (hI : Idle s0)
    (hs : step s0 t.event = some sA) :
    ∃ sb : State, sb.intervals = [] ∧ sb.invocations = [] ∧ sA = soloState sb 0 0 := by
  cases t with
  | click =>
    simp only [PageTask.event, step, Option.some.injEq] at hs
    have htp : togglePlay s0 = playSequence s0 := by simp [togglePlay, hI.1]
    exact ⟨s0, hI.2.2.2.1, hI.2.2.2.2, by rw [← hs, htp, playSequence_eq_solo]⟩
  | autoStart =>
    simp only [PageTask.event, step] at hs
    split at hs
    · simp only [Option.some.injEq] at hs
      exact ⟨{ s0 with autoTimer := false }, hI.2.2.2.1, hI.2.2.2.2,
        by rw [← hs, playSequence_eq_solo]⟩
    · simp at hs
  | tick k =>
    simp [PageTask.event, step, hI.2.2.2.1] at hs

/-- C22 (run completion leaves energyLevel unchanged): the code `playSequence`
runs when one of its awaited promises settles never writes `energyLevel`, in any
state (so neither do the steps after `clearInterval`: lines 59, 62, 70 and the
reset of lines 74-75).  For a run started by a click or by the auto-start in a
state the page can be in between two tasks, and continued only by its own events:
once the third promise has settled (`clearInterval` has run) `energyLevel` keeps
its value through every further event of the run, to the end of the call and
after it; the system status grid shows the same entries; and the only events
that change the value afterwards are a click and the auto-start, which set it to
0. -/
theorem completion_keeps_energyLevel (ts : List PageTask) (s0 : State) (t : PageTask)
    (sA : State) (evs1 evs2 : List Event) (s1 s2 : State)
    (hr : runTasks init ts = some s0)
    (hs : step s0 t.event = some sA)
    (hev1 : ∀ ev ∈ evs1, ev.ofRun s0.invocations.length = true)
    (h1 : run sA evs1 = some s1) (h3 : 3 ≤ countDone evs1)
    (hev2 : ∀ ev ∈ evs2, ev.ofRun s0.invocations.length = true)
    (h2 : run s1 evs2 = some s2) :
    s2.energyLevel = s1.energyLevel ∧
      systemStats s2.runState = systemStats s1.runState ∧
      (countDone evs1 + countDone evs2 = 5 →
        s2.playing = false ∧ s2.currentStep = 0 ∧ s2.invocations = []) ∧
      (∀ ev s3, step s2 ev = some s3 → s3.energyLevel ≠ s2.energyLevel →
        s3.energyLevel = 0 ∧ (ev = Event.click ∨ ev = Event.autoStart)) ∧
      (∀ (s : State) (i : Nat) (s3 : State),
        step s (Event.animationDone i) = some s3 → s3.energyLevel = s.energyLevel) := by
  have hI := idle_runTasks ts init s0 idle_init hr
  obtain ⟨sb, hi, hv, rfl⟩ := idle_start s0 t sA hI hs
  have hl : s0.invocations.length = sb.invocations.length := by simp [hv, hI.2.2.2.2]
  rw [hl] at hev1 hev2
  obtain ⟨hk, e1, rfl⟩ := solo_run sb evs1 0 0 s1 (by omega) hev1 h1
  simp only [Nat.zero_add] at hk h2 ⊢
  obtain ⟨hk2, rfl⟩ := solo_run_late sb hi evs2 (countDone evs1) e1 s2 h3 hk hev2 h2
  have hge : 3 ≤ countDone evs1 + countDone evs2 := by omega
  generalize countDone evs1 + countDone evs2 = k at hk2 hge ⊢
  have hk3 : k = 3 ∨ k = 4 ∨ k = 5 := by omega
  have hint : (soloState sb k e1).intervals = [] := by
    rcases hk3 with h | h | h <;> simp [soloState, h, hi]
  refine ⟨rfl, by simp [systemStats, State.runState, soloState], fun h5 => ?_, ?_, ?_⟩
  · subst h5
    simp [soloState, hv]
  · intro ev s3 hs3 hne
    cases ev with
    | click =>
      simp only [step, Option.some.injEq] at hs3
      subst hs3
      refine ⟨?_, Or.inl rfl⟩
      unfold togglePlay
      split <;> simp [playSequence]
    | autoStart =>
      simp only [step] at hs3
      split at hs3
      · cases hs3
        exact ⟨by simp [playSequence], Or.inr rfl⟩
      · simp at hs3
    | animationDone i =>
      exact absurd (resume_runState _ s3 i hs3).1 hne
    | tick t =>
      simp [step, hint] at hs3
  · intro s i s3 h
    exact (resume_runState s s3 i h).1

theorem completion_keeps_energyLevel_witness :
    ∃ sA s1 s2, step init PageTask.autoStart.event = some sA ∧
      run sA throughClear = some s1 ∧ run s1 afterClear = some s2 ∧
      s1.energyLevel = 3 / 10 ∧ s1.currentStep = 3 ∧
      (s2.energyLevel = s1.energyLevel ∧
        systemStats s2.runState = systemStats s1.runState ∧
        (countDone throughClear + countDone afterClear = 5 →
          s2.playing = false ∧ s2.currentStep = 0 ∧ s2.invocations = []) ∧
        (∀ ev s3, step s2 ev = some s3 → s3.energyLevel ≠ s2.energyLevel →
          s3.energyLevel = 0 ∧ (ev = Event.click ∨ ev = Event.autoStart)) ∧
        (∀ (s : State) (i : Nat) (s3 : State),
          step s (Event.animationDone i) = some s3 → s3.energyLevel = s.energyLevel)) :=
  ⟨_, _, _, rfl, rfl, rfl,
    by norm_num [clearInterval, playSequence, init, energyTick], rfl,
    completion_keeps_energyLevel [] init PageTask.autoStart _ throughClear afterClear _ _
      rfl rfl (by decide) rfl (by decide) (by decide) rfl⟩


theorem writes_in_order_witness :
    ∃ s, run init twoTicks = some s ∧ s.invocations.length = 1 ∧
      ∀ inv ∈ s.invocations, inv.writes = List.range (inv.pc.phase + 1) :=
  ⟨_, rfl, rfl, writes_in_order twoTicks _ rfl⟩

/-- C13 (timeline scenario), refuted for the page as it is: the durations 1.8 s,
2.0 s, 3.0 s and 2.5 s are passed to `controls.start` (lines 33, 42, 55, 66), but
`controls` animates no element, so nothing lasts that long.  A run started by a
click at time 0 goes through `currentStep` 0, 1, 2, 3 and back to 0 within the task
of the click; at every time from 0 on, and so at 2 s, 5 s and 8 s, the page shows
`playing = false`, `currentStep = 0`, `energyLevel = 0` and no phase indicator,
where the scenario has `currentStep` 1, 2 and 3. -/
theorem run_is_over_at_once :
    (∀ t : ℚ, 0 ≤ t → ∃ s, pageAt clickAtZero t = some s ∧
        s.runState = { playing := false, currentStep := 0, energyLevel := 0 } ∧
        phaseIndicator s.runState = none) ∧
      (∃ s, pageAt clickAtZero 5 = some s ∧ s.playing = false ∧ s.currentStep = 0 ∧
        s.currentStep ≠ 2) ∧
      (∃ s, pageAt clickAtZero 2 = some s ∧ s.currentStep ≠ 1) ∧
      (∃ s, pageAt clickAtZero 8 = some s ∧ s.currentStep ≠ 3) ∧
      (microStates init PageTask.click).map (fun m => (m.playing, m.currentStep)) =
        [(true, 0), (true, 1), (true, 2), (true, 3), (true, 3), (false, 0)] ∧
      [Await.approach, Await.fieldActivation, Await.energyConversion,
          Await.ringJettison].map Await.duration =
        [some (18 / 10), some 2, some 3, some (25 / 10)] := by
  have hrun : runTasks init [PageTask.click] = some (soloState init 5 0) := by
    simp only [runTasks, (click_idle init idle_init).1]
  have hall : ∀ t : ℚ, 0 ≤ t → pageAt clickAtZero t = some (soloState init 5 0) := by
    intro t ht
    simp [pageAt, clickAtZero, ht, hrun]
  refine ⟨fun t ht => ⟨_, hall t ht, ?_, ?_⟩, ⟨_, hall 5 (by norm_num), ?_, ?_, ?_⟩,
    ⟨_, hall 2 (by norm_num), ?_⟩, ⟨_, hall 8 (by norm_num), ?_⟩, ?_, ?_⟩
  · simp [State.runState, soloState]
  · simp [phaseIndicator, State.runState, soloState]
  · simp [soloState]
  · simp [soloState]
  · simp [soloState]
  · simp [soloState]
  · simp [soloState]
  · rw [(click_idle init idle_init).2]
    simp [soloState]
  · simp [Await.duration]

end BlueprintShowcase
